import Mathlib

/-!
Verification of the SAN/LAN chess move notation codec
(src/projects/lib/src/chessboard/movestring.cpp).

The codec is a single file of the repository; its collaborators (the board
representation `chessboard.h`, the move generator, `notation.cpp` and the
`Move` value class) are outside `src/`, so they are modelled from the
specification where definitions below say so.  Everything in namespace
`Chess` that is not marked "Modelled from the spec" is a direct shallow
embedding of the C++ in `movestring.cpp`, with QStrings rendered as
`List Char` and the mutable board rendered as explicit state passing.
-/

namespace Chess

/-- Modelled from the spec: piece-kind codes of the external board
representation (`chessboard.h`, not in src/).  The sign of a square's
entry encodes the colour, the magnitude the kind; `NoPiece` is zero. -/
def NoPiece : Int := 0

/-- Modelled from the spec: the pawn piece code. -/
def Pawn : Int := 1

/-- Modelled from the spec: the knight piece code. -/
def Knight : Int := 2

/-- Modelled from the spec: the bishop piece code. -/
def Bishop : Int := 3

/-- Modelled from the spec: the rook piece code. -/
def Rook : Int := 4

/-- Modelled from the spec: the queen piece code. -/
def Queen : Int := 5

/-- Modelled from the spec: the king piece code. -/
def King : Int := 6

/-- Modelled from the spec: the queenside castling wing
(`CastlingSide` enum of `chessboard.h`, not in src/). -/
def QueenSide : Int := 0

/-- Modelled from the spec: the kingside castling wing. -/
def KingSide : Int := 1

/-- Modelled from the spec: the `Move` value type (`chessboard.h`, not in
src/): source and target board-linear square indices, promotion piece code
(`NoPiece` when absent) and castling side (`-1` when not a castling move). -/
structure Move where
  source : Int
  target : Int
  promotion : Int
  castlingSide : Int
deriving DecidableEq, Repr

/-- Modelled from the spec: `Move(0, 0)`, the null/invalid move sentinel
returned by all failed decodes; the omitted constructor arguments default
to `NoPiece` and `-1`. -/
def Move.null : Move := ⟨0, 0, NoPiece, -1⟩

/-- Modelled from the spec: a `(file, rank)` square, zero based;
`(-1, -1)` is the explicitly invalid square. -/
structure Square where
  file : Int
  rank : Int
deriving DecidableEq, Repr

/-- Modelled from the spec: the read-only board snapshot the codec
consults (members of `Board` in `chessboard.h`, not in src/): piece per
linear square (signed), side multiplier `m_sign` (+1 white, -1 black),
side to move `m_side`, en-passant target square, king square per side,
castling target square per side and wing, board dimensions, and the
randomized-start flag `m_isRandom`. -/
structure Position where
  width : Int
  height : Int
  squares : Int → Int
  sign : Int
  side : Nat
  enpassantSquare : Int
  kingSquare : Nat → Int
  castleTarget : Nat → Int → Int
  isRandom : Bool

/-- Modelled from the spec: the external move-legality interface —
enumerate the legal moves of the position's side to move, test a side for
check, and apply a move yielding the successor position. -/
structure Rules where
  legalMoves : Position → List Move
  inCheck : Position → Nat → Bool
  makeMove : Position → Move → Position

/-- Modelled from the spec: the mutable board with its undo history.
`makeMove` saves the prior position, `undoMove` restores it (the spec's
"explicit undo token" rendering of the make/unmake mechanism, §9). -/
structure BoardState where
  pos : Position
  history : List Position

/-- Modelled from the spec: applying a move on the mutable board pushes
the prior position onto the undo history. -/
def stateMakeMove (R : Rules) (s : BoardState) (m : Move) : BoardState :=
  ⟨R.makeMove s.pos m, s.pos :: s.history⟩

/-- Modelled from the spec: reverting the last applied move pops the undo
history, restoring the saved position exactly. -/
def stateUndoMove (s : BoardState) : BoardState :=
  match s.history with
  | [] => s
  | p :: h => ⟨p, h⟩

/-- Modelled from the spec: width of the board array rows
(`chessboard.h`, not in src/): a mailbox layout with guard files, so that
linear index 0 is never a playing square and can serve as the "no square"
sentinel. -/
def arWidth (b : Position) : Int := b.width + 2

/-- Modelled from the spec: `Board::squareIndex` — the linear index of a
`(file, rank)` square in the mailbox array (two guard ranks below, one
guard file to the left; ranks stored top-down). -/
def squareIndex (b : Position) (sq : Square) : Int :=
  ((b.height - 1 - sq.rank) + 2) * arWidth b + 1 + sq.file

/-- Modelled from the spec: `Board::chessSquare` — the `(file, rank)`
square of a linear index, the inverse of `squareIndex`. -/
def chessSquare (b : Position) (i : Int) : Square :=
  ⟨i.tmod (arWidth b) - 1, (b.height - 1) - (i.tdiv (arWidth b) - 2)⟩

/-- Modelled from the spec: `Board::isValidSquare` — both coordinates in
range of the board dimensions. -/
def isValidSquare (b : Position) (sq : Square) : Prop :=
  0 ≤ sq.file ∧ sq.file < b.width ∧ 0 ≤ sq.rank ∧ sq.rank < b.height

instance (b : Position) (sq : Square) : Decidable (isValidSquare b sq) := by
  unfold isValidSquare; infer_instance

/-- Modelled from the spec: `Notation::pieceChar` (`notation.cpp`, not in
src/) — the upper-case letter of a piece kind. -/
def pieceChar (p : Int) : Char :=
  if p = Pawn then 'P'
  else if p = Knight then 'N'
  else if p = Bishop then 'B'
  else if p = Rook then 'R'
  else if p = Queen then 'Q'
  else if p = King then 'K'
  else ' '

/-- Modelled from the spec: `Notation::pieceCode` (`notation.cpp`, not in
src/) — the piece kind of a letter, `NoPiece` for an unrecognized one. -/
def pieceCode (c : Char) : Int :=
  if c = 'P' then Pawn
  else if c = 'N' then Knight
  else if c = 'B' then Bishop
  else if c = 'R' then Rook
  else if c = 'Q' then Queen
  else if c = 'K' then King
  else NoPiece

/-- The file letter of a file number: `'a' + file` (as in line 118 of
movestring.cpp). -/
def fileCharOf (f : Int) : Char := Char.ofNat (97 + f).toNat

/-- The rank digit of a rank number: `'1' + rank` (as in line 120 of
movestring.cpp). -/
def rankCharOf (r : Int) : Char := Char.ofNat (49 + r).toNat

/-- Modelled from the spec: `Notation::squareString` (`notation.cpp`, not
in src/) — the square token, file letter followed by the one-based rank
digit ("fixed at 8×8 in practice", spec §3, so ranks are single digits). -/
def squareString (sq : Square) : List Char :=
  [fileCharOf sq.file, rankCharOf sq.rank]

/-- Modelled from the spec: `Notation::square` (`notation.cpp`, not in
src/) — parse a square token: file is first char minus `'a'`, rank is
second char minus `'1'`; explicitly invalid when shorter than two
characters. -/
def parseSquare (cs : List Char) : Square :=
  match cs with
  | c0 :: c1 :: _ => ⟨(c0.toNat : Int) - 97, (c1.toNat : Int) - 49⟩
  | _ => ⟨-1, -1⟩

/-- Lines 44-56: `Board::longAlgebraicMoveString` — source token, target
token, then the lower-case promotion letter iff a promotion is present. -/
def longAlgebraicMoveString (b : Position) (m : Move) : List Char :=
  let source := chessSquare b m.source
  let target := chessSquare b m.target
  squareString source ++ squareString target ++
    (if m.promotion ≠ NoPiece then [(pieceChar m.promotion).toLower] else [])

/-- Lines 67-75: the check/mate annotation computed in the position after
the probed move — `'#'` when the side now to move is in check with no
legal reply, `'+'` when in check with a reply, nothing otherwise. -/
def checkOrMateSuffix (R : Rules) (p : Position) : List Char :=
  if R.inCheck p p.side then
    (if R.legalMoves p = [] then ['#'] else ['+'])
  else []

/-- Lines 101-115: the disambiguation scan of `Board::sanMoveString` —
fold the legal-move list, turning on `needFile` when another same-kind
move to the same target differs in source file, else `needRank` when it
differs in source rank. -/
def disambScan (b : Position) (moves : List Move) (source target piece : Int)
    (square : Square) : Bool × Bool :=
  moves.foldl
    (fun acc mv =>
      if mv.source = source then acc
      else if b.squares mv.source * b.sign ≠ piece then acc
      else if mv.target = target then
        let square2 := chessSquare b mv.source
        if square2.file ≠ square.file then (true, acc.2)
        else if square2.rank ≠ square.rank then (acc.1, true)
        else acc
      else acc)
    (false, false)

/-- Lines 117-130: the tail of every non-castling SAN string — optional
source file letter, optional source rank digit, capture mark, target
token, and promotion mark. -/
def sanTail (b : Position) (square : Square) (target capture : Int)
    (needFile needRank : Bool) (promotion : Int) : List Char :=
  (if needFile then [fileCharOf square.file] else [])
  ++ (if needRank then [rankCharOf square.rank] else [])
  ++ (if capture ≠ NoPiece then ['x'] else [])
  ++ squareString (chessSquare b target)
  ++ (if promotion ≠ 0 then ['=', pieceChar promotion] else [])

/-- Lines 58-136: `Board::sanMoveString`.  The move is applied and
reverted around the check/mate probe; the string is then composed from
the prior position.  Returns the string together with the board state
observed by the caller afterwards. -/
def sanMoveString (R : Rules) (s : BoardState) (m : Move) :
    List Char × BoardState :=
  let b := s.pos
  let source := m.source
  let target := m.target
  let piece := b.squares source * b.sign
  let capture := b.squares target
  let square := chessSquare b source
  let s1 := stateMakeMove R s m
  let checkOrMate := checkOrMateSuffix R s1.pos
  let s2 := stateUndoMove s1
  if piece = Pawn then
    let capture := if target = b.enpassantSquare then -Pawn * b.sign else capture
    let needFile := capture ≠ NoPiece
    (sanTail b square target capture needFile false m.promotion ++ checkOrMate, s2)
  else if piece = King then
    if m.castlingSide ≠ -1 then
      ((if m.castlingSide = QueenSide then ['O', '-', 'O', '-', 'O'] else ['O', '-', 'O'])
        ++ checkOrMate, s2)
    else
      (pieceChar piece ::
        (sanTail b square target capture false false m.promotion ++ checkOrMate), s2)
  else
    let nfr := disambScan b (R.legalMoves b) source target piece square
    (pieceChar piece ::
      (sanTail b square target capture nfr.1 nfr.2 m.promotion ++ checkOrMate), s2)

/-- Lines 155-167 of `Board::moveFromLongAlgebraicString`: build the
move from the two parsed squares and promotion, inferring the castling
side purely from the linear index difference when the source square
holds the side to move's king (no legality check). -/
def lanFinish (b : Position) (sourceSq targetSq : Square) (promotion : Int) : Move :=
  let source := squareIndex b sourceSq
  let target := squareIndex b targetSq
  let castlingSide : Int :=
    if b.squares source * b.sign = King then
      let diff := target - source
      if diff = -2 ∨ diff = -3 then QueenSide
      else if diff = 2 ∨ diff = 3 then KingSide
      else -1
    else -1
  ⟨source, target, promotion, castlingSide⟩

/-- Lines 138-168: `Board::moveFromLongAlgebraicString` — the fifth
character, when present (`str.drop 4` nonempty), must be a recognized
promotion letter. -/
def moveFromLongAlgebraicString (b : Position) (str : List Char) : Move :=
  if str.length < 4 then Move.null
  else
    let sourceSq := parseSquare (str.take 2)
    let targetSq := parseSquare ((str.drop 2).take 2)
    if ¬ isValidSquare b sourceSq ∨ ¬ isValidSquare b targetSq then Move.null
    else
      match str.drop 4 with
      | c :: _ =>
        let promotion := pieceCode c.toUpper
        if promotion = NoPiece then Move.null
        else lanFinish b sourceSq targetSq promotion
      | [] => lanFinish b sourceSq targetSq NoPiece

/-- Line 178: the characters stripped off the end of a SAN string before
parsing (check, mate, strong move, blunder marks). -/
def isAnnotationChar (c : Char) : Prop :=
  c = '+' ∨ c = '#' ∨ c = '!' ∨ c = '?'

instance (c : Char) : Decidable (isAnnotationChar c) := by
  unfold isAnnotationChar; infer_instance

/-- Lines 178-181: chop trailing annotation characters repeatedly. -/
def stripAnnotations (cs : List Char) : List Char :=
  (cs.reverse.dropWhile (fun c => decide (isAnnotationChar c))).reverse

/-- Line 187: does the (stripped) string start with "O-O"? -/
def startsOO (cs : List Char) : Prop :=
  cs.take 3 = ['O', '-', 'O']

instance (cs : List Char) : Decidable (startsOO cs) := by
  unfold startsOO; infer_instance

/-- Lines 187-199: the castling branch of `Board::moveFromSanString` —
the stripped string must be exactly "O-O" (kingside) or "O-O-O"
(queenside); the move is built from the king square and the registered
castling target of the side to move. -/
def sanCastleDecode (b : Position) (mstr : List Char) : Move :=
  if mstr = ['O', '-', 'O'] then
    ⟨b.kingSquare b.side, b.castleTarget b.side KingSide, NoPiece, KingSide⟩
  else if mstr = ['O', '-', 'O', '-', 'O'] then
    ⟨b.kingSquare b.side, b.castleTarget b.side QueenSide, NoPiece, QueenSide⟩
  else Move.null

/-- The data the SAN string parse extracts before the capture-consistency
check: piece kind, source file/rank constraints (`-1` when unspecified),
target square, explicit capture mark, and the characters left after the
target token. -/
structure SanStruct where
  piece : Int
  sfile : Int
  srank : Int
  targetSq : Square
  stringIsCapture : Bool
  rest : List Char
deriving DecidableEq, Repr

/-- Lines 256-265: parse the two-character target token (after checking
that at least two characters remain) and check its validity. -/
def sanStructTarget (b : Position) (piece sfile srank : Int)
    (stringIsCapture : Bool) (rest : List Char) : Option SanStruct :=
  match rest with
  | t1 :: t2 :: rest2 =>
    let targetSq := parseSquare [t1, t2]
    if isValidSquare b targetSq then
      some ⟨piece, sfile, srank, targetSq, stringIsCapture, rest2⟩
    else none
  | _ => none

/-- Lines 239-254: when the input ends here, what looked like the source
square was really the target (fail if it is not a valid square); an `x`
here marks an explicit capture and must not end the input. -/
def sanStructTail (b : Position) (piece sfile srank : Int)
    (rest : List Char) : Option SanStruct :=
  match rest with
  | [] =>
    if isValidSquare b ⟨sfile, srank⟩ then
      some ⟨piece, -1, -1, ⟨sfile, srank⟩, false, []⟩
    else none
  | c :: rest1 =>
    if c = 'x' then
      match rest1 with
      | [] => none
      | _ => sanStructTarget b piece sfile srank true rest1
    else sanStructTarget b piece sfile srank false rest

/-- Lines 233-238: an optional source rank digit, validated against the
board height (`'0'` parses to rank `-1` and fails). -/
def sanStructRank (b : Position) (piece sfile : Int)
    (rest : List Char) : Option SanStruct :=
  match rest with
  | [] => none
  | c :: rest1 =>
    if c.isDigit then
      let r : Int := (c.toNat : Int) - 49
      if r < 0 ∨ b.height ≤ r then none
      else sanStructTail b piece sfile r rest1
    else sanStructTail b piece sfile (-1) rest

/-- Lines 226-230: an optional source file letter, validated against the
board width; the iterator advances only when the letter was in range, and
the input must not end right after it. -/
def sanStructSource (b : Position) (piece : Int)
    (rest : List Char) : Option SanStruct :=
  match rest with
  | [] => none
  | c :: rest1 =>
    let f : Int := (c.toNat : Int) - 97
    if f < 0 ∨ b.width ≤ f then sanStructRank b piece (-1) rest
    else
      match rest1 with
      | [] => none
      | _ => sanStructRank b piece f rest1

/-- Lines 201-265 of `Board::moveFromSanString`: the structural parse of
a stripped, non-castling SAN string, up to and including the target
square.  Rejects a leading `'x'` or `'P'`; a missing piece letter means a
pawn, whose first two characters may already be the target token. -/
def sanParseStruct (b : Position) (mstr : List Char) : Option SanStruct :=
  match mstr with
  | [] => none
  | c0 :: _ =>
    if c0 = 'x' ∨ c0 = 'P' then none
    else
      let piece0 := pieceCode c0
      let piece1 := if piece0 < 0 then NoPiece else piece0
      if piece1 = NoPiece then
        let targetSq := parseSquare (mstr.take 2)
        if isValidSquare b targetSq then
          some ⟨Pawn, -1, -1, targetSq, false, mstr.drop 2⟩
        else sanStructSource b Pawn mstr
      else sanStructSource b piece1 (mstr.drop 1)

/-- Lines 270-273: whether the move is actually a capture according to
the board — an enemy piece on the target, or a pawn moving to the
en-passant square. -/
def boardIsCapture (b : Position) (piece target : Int) : Prop :=
  b.squares target * b.sign < 0 ∨ (target = b.enpassantSquare ∧ piece = Pawn)

instance (b : Position) (piece target : Int) :
    Decidable (boardIsCapture b piece target) := by
  unfold boardIsCapture; infer_instance

/-- The constraints the resolution loop matches against, produced once
the capture-consistency check and the promotion parse succeeded. -/
structure SanData where
  piece : Int
  sfile : Int
  srank : Int
  target : Int
  promotion : Int
deriving DecidableEq, Repr

/-- Lines 277-287: the optional promotion — an optional `'='` or `'('`
lead-in (which must not end the input), then a mandatory piece letter;
characters after the promotion letter are never examined. -/
def sanPromo (piece sfile srank target : Int) (rest : List Char) :
    Option SanData :=
  match rest with
  | [] => some ⟨piece, sfile, srank, target, NoPiece⟩
  | c :: rest1 =>
    let rest2 := if c = '=' ∨ c = '(' then rest1 else rest
    match rest2 with
    | [] => none
    | p :: _ =>
      let promotion := pieceCode p
      if promotion = NoPiece then none
      else some ⟨piece, sfile, srank, target, promotion⟩

/-- Lines 201-287: the full parse of a stripped, non-castling SAN string:
structural parse, then the capture-consistency check of lines 266-275,
then the promotion parse. -/
def sanParse (b : Position) (mstr : List Char) : Option SanData :=
  match sanParseStruct b mstr with
  | none => none
  | some s =>
    let target := squareIndex b s.targetSq
    if (decide (boardIsCapture b s.piece target)) ≠ s.stringIsCapture then none
    else sanPromo s.piece s.sfile s.srank target s.rest

/-- Lines 295-317: one legal move's test against the parsed data — piece
kind by board lookup, target square, source rank and file wherever
constrained, not a castling move, and equal promotion piece. -/
def sanCandidate (b : Position) (d : SanData) (mv : Move) : Prop :=
  b.squares mv.source * b.sign = d.piece
  ∧ mv.target = d.target
  ∧ (d.srank = -1 ∨ (chessSquare b mv.source).rank = d.srank)
  ∧ (d.sfile = -1 ∨ (chessSquare b mv.source).file = d.sfile)
  ∧ mv.castlingSide = -1
  ∧ mv.promotion = d.promotion

instance (b : Position) (d : SanData) (mv : Move) :
    Decidable (sanCandidate b d mv) := by
  unfold sanCandidate; infer_instance

/-- Lines 289-322: the resolution loop — scan the legal moves for one
matching the parsed data; a second match fails immediately, no match at
the end fails. -/
def resolveSan (b : Position) (d : SanData) :
    List Move → Option Move → Move
  | [], none => Move.null
  | [], some mv => mv
  | mv :: rest, acc =>
    if sanCandidate b d mv then
      match acc with
      | some _ => Move.null
      | none => resolveSan b d rest (some mv)
    else resolveSan b d rest acc

/-- Lines 170-323: `Board::moveFromSanString`. -/
def moveFromSanString (R : Rules) (b : Position) (str : List Char) : Move :=
  if str.length < 2 then Move.null
  else
    let mstr := stripAnnotations str
    if mstr.length < 2 then Move.null
    else if startsOO mstr then sanCastleDecode b mstr
    else
      match sanParse b mstr with
      | none => Move.null
      | some d => resolveSan b d (R.legalMoves b) none

/-- Lines 24-33: `Board::moveString` — the dispatcher for encoding: SAN
when requested, or when the move castles in a randomized-start game;
long algebraic otherwise. -/
inductive MoveFormat where
  | standardAlgebraic
  | longAlgebraic
deriving DecidableEq, Repr

/-- Lines 24-33: `Board::moveString`. -/
def moveString (R : Rules) (s : BoardState) (m : Move) (fmt : MoveFormat) :
    List Char × BoardState :=
  if fmt = MoveFormat.standardAlgebraic ∨ (m.castlingSide ≠ -1 ∧ s.pos.isRandom) then
    sanMoveString R s m
  else (longAlgebraicMoveString s.pos m, s)

/-- Lines 35-41: `Board::moveFromString` — try SAN first; if the result
is the sentinel (source or target square 0), fall back to LAN. -/
def moveFromString (R : Rules) (b : Position) (str : List Char) : Move :=
  let move := moveFromSanString R b str
  if move.source = 0 ∨ move.target = 0 then moveFromLongAlgebraicString b str
  else move

/-- The guarantees of the external move generator and board that the
codec relies on (spec §4.4 precondition, §6): sane board dimensions (at
most 9 files and ranks so square tokens are a letter plus one digit, §3
"fixed at 8×8 in practice"), a two-valued colour sign, a duplicate-free
legal move list whose moves sit on valid squares, move own pieces, never
capture their own colour, promote only pawns and only to real pieces,
mark exactly the king's registry moves as castling (with the ±2/±3 king
travel of the castling convention), keep ordinary king moves off those
offsets, and have the usual one-king and at-most-one-pawn-per-resolution
uniqueness properties. -/
def wellFormedSan (R : Rules) (b : Position) : Prop :=
  0 < b.width ∧ b.width ≤ 9 ∧ 0 < b.height ∧ b.height ≤ 9
  ∧ (b.sign = 1 ∨ b.sign = -1)
  ∧ (R.legalMoves b).Nodup
  ∧ (∀ mv ∈ R.legalMoves b,
      isValidSquare b (chessSquare b mv.source)
      ∧ mv.source = squareIndex b (chessSquare b mv.source)
      ∧ isValidSquare b (chessSquare b mv.target)
      ∧ mv.target = squareIndex b (chessSquare b mv.target))
  ∧ (∀ mv ∈ R.legalMoves b,
      1 ≤ b.squares mv.source * b.sign ∧ b.squares mv.source * b.sign ≤ 6)
  ∧ (∀ mv ∈ R.legalMoves b, b.squares mv.target * b.sign ≤ 0)
  ∧ (∀ mv ∈ R.legalMoves b,
      mv.promotion = NoPiece ∨ (1 ≤ mv.promotion ∧ mv.promotion ≤ 6))
  ∧ (∀ mv ∈ R.legalMoves b,
      b.squares mv.source * b.sign ≠ Pawn → mv.promotion = NoPiece)
  ∧ (∀ mv ∈ R.legalMoves b, mv.castlingSide ≠ -1 →
      b.squares mv.source * b.sign = King
      ∧ (mv.castlingSide = QueenSide ∨ mv.castlingSide = KingSide)
      ∧ mv.source = b.kingSquare b.side
      ∧ mv.target = b.castleTarget b.side mv.castlingSide
      ∧ mv.promotion = NoPiece
      ∧ (mv.castlingSide = QueenSide →
          (mv.target - mv.source = -2 ∨ mv.target - mv.source = -3))
      ∧ (mv.castlingSide = KingSide →
          (mv.target - mv.source = 2 ∨ mv.target - mv.source = 3)))
  ∧ (∀ mv ∈ R.legalMoves b,
      b.squares mv.source * b.sign = King → mv.castlingSide = -1 →
      ¬(mv.target - mv.source = -2 ∨ mv.target - mv.source = -3
        ∨ mv.target - mv.source = 2 ∨ mv.target - mv.source = 3))
  ∧ (∀ mv ∈ R.legalMoves b, ∀ mv2 ∈ R.legalMoves b,
      b.squares mv.source * b.sign = King → b.squares mv2.source * b.sign = King →
      mv.source = mv2.source)
  ∧ (∀ mv ∈ R.legalMoves b, ∀ mv2 ∈ R.legalMoves b,
      b.squares mv.source * b.sign = Pawn → b.squares mv2.source * b.sign = Pawn →
      mv.target = mv2.target → mv.promotion = mv2.promotion →
      (chessSquare b mv.source).file = (chessSquare b mv2.source).file →
      mv.castlingSide = -1 → mv2.castlingSide = -1 → mv = mv2)
  ∧ (∀ mv ∈ R.legalMoves b, ∀ mv2 ∈ R.legalMoves b,
      b.squares mv.source * b.sign = Pawn → b.squares mv2.source * b.sign = Pawn →
      mv.target = mv2.target → mv.promotion = mv2.promotion →
      ¬ boardIsCapture b Pawn mv.target →
      mv.castlingSide = -1 → mv2.castlingSide = -1 → mv = mv2)

set_option synthInstance.maxSize 512 in
set_option synthInstance.maxHeartbeats 1000000 in
instance (R : Rules) (b : Position) : Decidable (wellFormedSan R b) := by
  unfold wellFormedSan; infer_instance

/-! ### Concrete fixtures used by the witnesses

An 8×8 board with white to move; linear indices follow `squareIndex`
with `arWidth = 10` (e1 = 95, e2 = 85, e4 = 65, g1 = 97, c1 = 93,
f3 = 76, e7 = 35, e8 = 25, d5 = 54, e4' = 65). -/

/-- Witness board: white pawn on e2 (85), white knight on g1 (97),
white king on e1 (95). -/
def wPos1 : Position :=
  { width := 8, height := 8,
    squares := fun i => if i = 85 then 1 else if i = 97 then 2 else if i = 95 then 6 else 0,
    sign := 1, side := 0, enpassantSquare := 0,
    kingSquare := fun _ => 95,
    castleTarget := fun _ c => if c = 1 then 97 else 93,
    isRandom := false }

/-- Witness move: the pawn push e2-e4. -/
def wMove1 : Move := ⟨85, 65, 0, -1⟩

/-- Witness move: the knight development g1-f3. -/
def wMove2 : Move := ⟨97, 76, 0, -1⟩

/-- Witness rules: a constant legality oracle for `wPos1`. -/
def wRules1 : Rules :=
  { legalMoves := fun _ => [⟨85, 65, 0, -1⟩, ⟨97, 76, 0, -1⟩],
    inCheck := fun _ _ => false,
    makeMove := fun p _ => p }

/-- Witness state: `wPos1` with an empty undo history. -/
def wState1 : BoardState := ⟨wPos1, []⟩

/-- Witness board for ambiguity: white knights on g1 (97) and c1 (93),
white king on e8 (25), both knights able to reach e2 (85). -/
def wPos2 : Position :=
  { width := 8, height := 8,
    squares := fun i => if i = 97 then 2 else if i = 93 then 2 else if i = 25 then 6 else 0,
    sign := 1, side := 0, enpassantSquare := 0,
    kingSquare := fun _ => 25,
    castleTarget := fun _ c => if c = 1 then 97 else 93,
    isRandom := false }

/-- Witness rules for `wPos2`: both knight moves to e2 are legal. -/
def wRules2 : Rules :=
  { legalMoves := fun _ => [⟨97, 85, 0, -1⟩, ⟨93, 85, 0, -1⟩],
    inCheck := fun _ _ => false,
    makeMove := fun p _ => p }

/-- Witness state: `wPos2` with an empty undo history. -/
def wState2 : BoardState := ⟨wPos2, []⟩

/-- Witness move: the knight move g1-e2 in `wPos2`, where the c1 knight
can reach the same square. -/
def wMove4 : Move := ⟨97, 85, 0, -1⟩

/-- Witness rules delivering a mate probe: every position is reported in
check with no legal reply. -/
def wRulesMate : Rules :=
  { legalMoves := fun _ => [],
    inCheck := fun _ _ => true,
    makeMove := fun p _ => p }

/-- Witness board for promotions: white pawn on e7 (35), white king on
e1 (95). -/
def wPos3 : Position :=
  { width := 8, height := 8,
    squares := fun i => if i = 35 then 1 else if i = 95 then 6 else 0,
    sign := 1, side := 0, enpassantSquare := 0,
    kingSquare := fun _ => 95,
    castleTarget := fun _ c => if c = 1 then 97 else 93,
    isRandom := false }

/-- Witness move: the promotion e7-e8=Q. -/
def wMove3 : Move := ⟨35, 25, 5, -1⟩

/-- Witness rules for `wPos3`: only the queen promotion is legal. -/
def wRules3 : Rules :=
  { legalMoves := fun _ => [⟨35, 25, 5, -1⟩],
    inCheck := fun _ _ => false,
    makeMove := fun p _ => p }

/-- Witness state: `wPos3` with an empty undo history. -/
def wState3 : BoardState := ⟨wPos3, []⟩

/-! ### Character facts -/

theorem char_toNat_ofNat (n : Nat) (h : n < 55296) : (Char.ofNat n).toNat = n := by
  have hv : n.isValidChar := Or.inl h
  unfold Char.ofNat
  simp only [hv, dif_pos]
  rfl

theorem char_eq_of_toNat (a b : Char) (h : a.toNat = b.toNat) : a = b := by
  apply Char.ext
  unfold Char.toNat at h
  exact UInt32.toNat.inj h

theorem char_isDigit_iff (c : Char) :
    c.isDigit = true ↔ 48 ≤ c.toNat ∧ c.toNat ≤ 57 := by
  unfold Char.isDigit Char.toNat
  simp only [Bool.and_eq_true, decide_eq_true_eq, ge_iff_le]
  exact Iff.rfl

theorem fileCharOf_toNat (f : Int) (h0 : 0 ≤ f) (h1 : f ≤ 25) :
    ((fileCharOf f).toNat : Int) = 97 + f := by
  unfold fileCharOf
  rw [char_toNat_ofNat _ (by omega)]
  omega

theorem rankCharOf_toNat (r : Int) (h0 : 0 ≤ r) (h1 : r ≤ 8) :
    ((rankCharOf r).toNat : Int) = 49 + r := by
  unfold rankCharOf
  rw [char_toNat_ofNat _ (by omega)]
  omega

theorem fileCharOf_isDigit (f : Int) (h0 : 0 ≤ f) (h1 : f ≤ 25) :
    (fileCharOf f).isDigit = false := by
  rw [← Bool.not_eq_true, char_isDigit_iff]
  have := fileCharOf_toNat f h0 h1
  omega

theorem rankCharOf_isDigit (r : Int) (h0 : 0 ≤ r) (h1 : r ≤ 8) :
    (rankCharOf r).isDigit = true := by
  rw [char_isDigit_iff]
  have := rankCharOf_toNat r h0 h1
  omega

theorem char_ne_of_toNat_ne (a b : Char) (h : a.toNat ≠ b.toNat) : a ≠ b :=
  fun he => h (by rw [he])

theorem pieceCode_of_toNat_large (c : Char) (h : 97 ≤ c.toNat) :
    pieceCode c = NoPiece := by
  unfold pieceCode
  rw [if_neg, if_neg, if_neg, if_neg, if_neg, if_neg] <;>
    (rintro rfl; revert h; decide)

theorem pieceCode_of_toNat_small (c : Char) (h : c.toNat ≤ 57) :
    pieceCode c = NoPiece := by
  unfold pieceCode
  rw [if_neg, if_neg, if_neg, if_neg, if_neg, if_neg] <;>
    (rintro rfl; revert h; decide)

theorem fileCharOf_pieceCode (f : Int) (h0 : 0 ≤ f) (h1 : f ≤ 25) :
    pieceCode (fileCharOf f) = NoPiece := by
  apply pieceCode_of_toNat_large
  have := fileCharOf_toNat f h0 h1
  omega

theorem rankCharOf_pieceCode (r : Int) (h0 : 0 ≤ r) (h1 : r ≤ 8) :
    pieceCode (rankCharOf r) = NoPiece := by
  apply pieceCode_of_toNat_small
  have := rankCharOf_toNat r h0 h1
  omega

theorem fileCharOf_ne (f : Int) (h0 : 0 ≤ f) (h1 : f ≤ 8) (c : Char)
    (hc : c.toNat < 97 ∨ 105 < c.toNat) : fileCharOf f ≠ c := by
  apply char_ne_of_toNat_ne
  have := fileCharOf_toNat f h0 (by omega)
  omega

theorem rankCharOf_ne (r : Int) (h0 : 0 ≤ r) (h1 : r ≤ 8) (c : Char)
    (hc : c.toNat < 49 ∨ 57 < c.toNat) : rankCharOf r ≠ c := by
  apply char_ne_of_toNat_ne
  have := rankCharOf_toNat r h0 h1
  omega

theorem pieceCode_pieceChar (p : Int) (h1 : 1 ≤ p) (h6 : p ≤ 6) :
    pieceCode (pieceChar p) = p := by
  interval_cases p <;> decide

theorem pieceChar_toNat_range (p : Int) (h1 : 1 ≤ p) (h6 : p ≤ 6) :
    66 ≤ (pieceChar p).toNat ∧ (pieceChar p).toNat ≤ 82 := by
  interval_cases p <;> decide

theorem pieceChar_upper_lower (p : Int) (h1 : 1 ≤ p) (h6 : p ≤ 6) :
    (pieceChar p).toLower.toUpper = pieceChar p := by
  interval_cases p <;> decide

theorem pieceChar_toLower_toNat (p : Int) (h1 : 1 ≤ p) (h6 : p ≤ 6) :
    98 ≤ (pieceChar p).toLower.toNat ∧ (pieceChar p).toLower.toNat ≤ 114 := by
  interval_cases p <;> decide

/-! ### Square geometry facts -/

theorem squareIndex_chessSquare (b : Position) (sq : Square)
    (hw : 0 < b.width) (hv : isValidSquare b sq) :
    chessSquare b (squareIndex b sq) = sq := by
  obtain ⟨h0, h1, h2, h3⟩ := hv
  have ha : (0 : Int) < arWidth b := by unfold arWidth; omega
  unfold chessSquare squareIndex
  set K : Int := b.height - 1 - sq.rank + 2 with hK
  have hKpos : 0 ≤ K := by omega
  have hidx : 0 ≤ K * arWidth b + 1 + sq.file := by positivity
  have hfl : (0 : Int) ≤ 1 + sq.file := by omega
  have hfu : 1 + sq.file < arWidth b := by unfold arWidth; omega
  have hmod : (K * arWidth b + 1 + sq.file).tmod (arWidth b) = 1 + sq.file := by
    rw [Int.tmod_eq_emod hidx (le_of_lt ha)]
    have : K * arWidth b + 1 + sq.file = 1 + sq.file + K * arWidth b := by ring
    rw [this, Int.add_mul_emod_self, Int.emod_eq_of_lt hfl hfu]
  have hdiv : (K * arWidth b + 1 + sq.file).tdiv (arWidth b) = K := by
    rw [Int.tdiv_eq_ediv hidx (le_of_lt ha)]
    have : K * arWidth b + 1 + sq.file = 1 + sq.file + K * arWidth b := by ring
    rw [this, Int.add_mul_ediv_right _ _ (ne_of_gt ha),
      Int.ediv_eq_zero_of_lt hfl hfu]
    omega
  simp only [hmod, hdiv]
  rw [Square.mk.injEq]
  constructor <;> omega

theorem squareIndex_pos (b : Position) (sq : Square)
    (hw : 0 < b.width) (hv : isValidSquare b sq) :
    0 < squareIndex b sq := by
  obtain ⟨h0, h1, h2, h3⟩ := hv
  unfold squareIndex arWidth
  nlinarith

theorem chessSquare_inj (b : Position) (i j : Int)
    (h : chessSquare b i = chessSquare b j) : i = j := by
  unfold chessSquare at h
  rw [Square.mk.injEq] at h
  obtain ⟨hf, hr⟩ := h
  have hmod : i.tmod (arWidth b) = j.tmod (arWidth b) := by omega
  have hdiv : i.tdiv (arWidth b) = j.tdiv (arWidth b) := by omega
  have hi := Int.tdiv_add_tmod i (arWidth b)
  have hj := Int.tdiv_add_tmod j (arWidth b)
  rw [← hi, ← hj, hmod, hdiv]

/-! ### Annotation-stripping facts -/

theorem stripAnnotations_no_ann (cs : List Char)
    (h : ∀ c, cs.getLast? = some c → ¬ isAnnotationChar c) :
    stripAnnotations cs = cs := by
  unfold stripAnnotations
  cases hr : cs.reverse with
  | nil =>
    have : cs = [] := by simpa using congrArg List.reverse hr
    simp [this]
  | cons c t =>
    have hc : cs.getLast? = some c := by
      rw [← List.head?_reverse, hr]; rfl
    rw [List.dropWhile_cons, if_neg (by simp [h c hc]), ← hr, List.reverse_reverse]

theorem stripAnnotations_append (xs ys : List Char)
    (hys : ∀ c ∈ ys, isAnnotationChar c)
    (hxs : ∀ c, xs.getLast? = some c → ¬ isAnnotationChar c) :
    stripAnnotations (xs ++ ys) = xs := by
  unfold stripAnnotations
  rw [List.reverse_append, List.dropWhile_append]
  have h1 : ys.reverse.dropWhile (fun c => decide (isAnnotationChar c)) = [] := by
    rw [List.dropWhile_eq_nil_iff]
    intro c hc
    simp [hys c (List.mem_reverse.mp hc)]
  rw [h1]
  simp only [List.isEmpty_nil, if_true]
  cases hr : xs.reverse with
  | nil =>
    have : xs = [] := by simpa using congrArg List.reverse hr
    simp [this]
  | cons c t =>
    have hc : xs.getLast? = some c := by
      rw [← List.head?_reverse, hr]; rfl
    rw [List.dropWhile_cons, if_neg (by simp [hxs c hc]), ← hr, List.reverse_reverse]

theorem stripAnnotations_split (cs : List Char) :
    ∃ ys, cs = stripAnnotations cs ++ ys ∧ ∀ c ∈ ys, isAnnotationChar c := by
  refine ⟨(cs.reverse.takeWhile (fun c => decide (isAnnotationChar c))).reverse, ?_, ?_⟩
  · unfold stripAnnotations
    rw [← List.reverse_append, List.takeWhile_append_dropWhile, List.reverse_reverse]
  · intro c hc
    rw [List.mem_reverse] at hc
    have := List.mem_takeWhile_imp hc
    simpa using this

theorem stripAnnotations_getLast (cs : List Char) (c : Char)
    (h : (stripAnnotations cs).getLast? = some c) : ¬ isAnnotationChar c := by
  unfold stripAnnotations at h
  rw [List.getLast?_reverse] at h
  intro hann
  cases hd : cs.reverse.dropWhile (fun c => decide (isAnnotationChar c)) with
  | nil => rw [hd] at h; simp at h
  | cons x t =>
    rw [hd] at h
    have hx : x = c := by simpa using h
    have := List.head?_dropWhile_not (fun c => decide (isAnnotationChar c)) cs.reverse
    rw [hd] at this
    simp [hx] at this
    exact this hann

/-! ### Disambiguation-scan characterization -/

/-- A legal move that forces the source file into the SAN string: same
piece kind to the same target from a different source whose file
differs. -/
def scanFileWitness (b : Position) (source target piece : Int)
    (square : Square) (mv : Move) : Prop :=
  mv.source ≠ source ∧ b.squares mv.source * b.sign = piece
  ∧ mv.target = target ∧ (chessSquare b mv.source).file ≠ square.file

/-- A legal move that forces the source rank into the SAN string: same
piece kind to the same target from a different source on the same file
but a different rank. -/
def scanRankWitness (b : Position) (source target piece : Int)
    (square : Square) (mv : Move) : Prop :=
  mv.source ≠ source ∧ b.squares mv.source * b.sign = piece
  ∧ mv.target = target ∧ (chessSquare b mv.source).file = square.file
  ∧ (chessSquare b mv.source).rank ≠ square.rank

instance (b : Position) (source target piece : Int) (square : Square)
    (mv : Move) : Decidable (scanFileWitness b source target piece square mv) := by
  unfold scanFileWitness; infer_instance

instance (b : Position) (source target piece : Int) (square : Square)
    (mv : Move) : Decidable (scanRankWitness b source target piece square mv) := by
  unfold scanRankWitness; infer_instance

theorem disambScan_eq (b : Position) (moves : List Move)
    (source target piece : Int) (square : Square) :
    disambScan b moves source target piece square =
      (moves.any (fun mv => decide (scanFileWitness b source target piece square mv)),
       moves.any (fun mv => decide (scanRankWitness b source target piece square mv))) := by
  unfold disambScan
  suffices h : ∀ acc : Bool × Bool,
      moves.foldl
        (fun acc mv =>
          if mv.source = source then acc
          else if b.squares mv.source * b.sign ≠ piece then acc
          else if mv.target = target then
            let square2 := chessSquare b mv.source
            if square2.file ≠ square.file then (true, acc.2)
            else if square2.rank ≠ square.rank then (acc.1, true)
            else acc
          else acc)
        acc =
      (acc.1 || moves.any (fun mv => decide (scanFileWitness b source target piece square mv)),
       acc.2 || moves.any (fun mv => decide (scanRankWitness b source target piece square mv))) by
    rw [h (false, false)]
    simp
  induction moves with
  | nil => intro acc; simp
  | cons mv rest ih =>
    intro acc
    rw [List.foldl_cons, List.any_cons, List.any_cons, ih]
    by_cases h1 : mv.source = source
    · simp [scanFileWitness, scanRankWitness, h1]
    · by_cases h2 : b.squares mv.source * b.sign = piece
      · by_cases h3 : mv.target = target
        · by_cases h4 : (chessSquare b mv.source).file = square.file
          · by_cases h5 : (chessSquare b mv.source).rank = square.rank
            · simp [scanFileWitness, scanRankWitness, h1, h2, h3, h4, h5]
            · simp [scanFileWitness, scanRankWitness, h1, h2, h3, h4, h5, Bool.or_assoc]
          · simp [scanFileWitness, scanRankWitness, h1, h2, h3, h4, Bool.or_assoc]
        · simp [scanFileWitness, scanRankWitness, h1, h2, h3]
      · simp [scanFileWitness, scanRankWitness, h1, h2]

/-! ### Resolution-loop characterization -/

theorem resolveSan_some (b : Position) (d : SanData) (l : List Move) (a : Move) :
    resolveSan b d l (some a) =
      if l.filter (fun mv => decide (sanCandidate b d mv)) = [] then a
      else Move.null := by
  induction l with
  | nil => simp [resolveSan]
  | cons mv rest ih =>
    by_cases hc : sanCandidate b d mv
    · simp [resolveSan, hc, List.filter_cons]
    · simp [resolveSan, hc, List.filter_cons, ih]

theorem resolveSan_none (b : Position) (d : SanData) (l : List Move) :
    resolveSan b d l none =
      match l.filter (fun mv => decide (sanCandidate b d mv)) with
      | [mv] => mv
      | _ => Move.null := by
  induction l with
  | nil => simp [resolveSan]
  | cons mv rest ih =>
    by_cases hc : sanCandidate b d mv
    · rw [List.filter_cons, if_pos (by simp [hc])]
      have : resolveSan b d (mv :: rest) none = resolveSan b d rest (some mv) := by
        simp [resolveSan, hc]
      rw [this, resolveSan_some]
      cases hfr : rest.filter (fun mv => decide (sanCandidate b d mv)) with
      | nil => simp
      | cons x t => simp
    · rw [List.filter_cons, if_neg (by simp [hc])]
      have : resolveSan b d (mv :: rest) none = resolveSan b d rest none := by
        simp [resolveSan, hc]
      rw [this, ih]

theorem resolveSan_unique (b : Position) (d : SanData) (l : List Move) (m : Move)
    (hnd : l.Nodup) (hm : m ∈ l) (hcand : sanCandidate b d m)
    (huniq : ∀ c ∈ l, sanCandidate b d c → c = m) :
    resolveSan b d l none = m := by
  rw [resolveSan_none]
  have hfe : l.filter (fun mv => decide (sanCandidate b d mv)) = [m] := by
    have hmf : m ∈ l.filter (fun mv => decide (sanCandidate b d mv)) :=
      List.mem_filter.mpr ⟨hm, by simp [hcand]⟩
    have hall : ∀ x ∈ l.filter (fun mv => decide (sanCandidate b d mv)), x = m := by
      intro x hx
      rw [List.mem_filter] at hx
      exact huniq x hx.1 (by simpa using hx.2)
    have hndf : (l.filter (fun mv => decide (sanCandidate b d mv))).Nodup :=
      hnd.filter _
    cases hf : l.filter (fun mv => decide (sanCandidate b d mv)) with
    | nil => rw [hf] at hmf; simp at hmf
    | cons x t =>
      rw [hf] at hall hndf
      have hxm : x = m := hall x (by simp)
      have ht : t = [] := by
        cases ht : t with
        | nil => rfl
        | cons y u =>
          rw [ht] at hall hndf
          have hym : y = m := hall y (by simp)
          rw [List.nodup_cons] at hndf
          exact absurd (by simp [hxm, hym] : x ∈ y :: u) hndf.1
      rw [hxm, ht]
  rw [hfe]

theorem resolveSan_range (b : Position) (d : SanData) (l : List Move) :
    resolveSan b d l none = Move.null ∨ resolveSan b d l none ∈ l := by
  rw [resolveSan_none]
  cases hf : l.filter (fun mv => decide (sanCandidate b d mv)) with
  | nil => left; rfl
  | cons x t =>
    cases t with
    | nil =>
      right
      have : x ∈ l.filter (fun mv => decide (sanCandidate b d mv)) := by
        rw [hf]; simp
      exact List.mem_of_mem_filter this
    | cons y u => left; rfl

/-! ### Claim C4 -/

/-- C4: SAN encoding leaves the board in exactly its prior state on
every return path — the one applied move is reverted before any return
(including the early castling return), so the piece array, side to move,
en-passant square, king squares and castling registry observed by the
caller (all components of the returned `BoardState`) are unchanged by
`sanMoveString`. -/
theorem c4_san_encode_preserves_board (R : Rules) (s : BoardState) (m : Move) :
    (sanMoveString R s m).2 = s := by
  simp only [sanMoveString, stateUndoMove, stateMakeMove]
  split_ifs <;> rfl

/-! ### Claim C6 -/

/-- C6: the top-level encoder `moveString` returns the SAN encoding when
the requested format is standard algebraic, or when the move's
castling side is not none and the game uses a randomized starting setup;
in every other case it returns the LAN encoding. -/
theorem c6_dispatch (R : Rules) (s : BoardState) (m : Move) (fmt : MoveFormat) :
    (fmt = MoveFormat.standardAlgebraic ∨ (m.castlingSide ≠ -1 ∧ s.pos.isRandom) →
      moveString R s m fmt = sanMoveString R s m)
    ∧ (¬(fmt = MoveFormat.standardAlgebraic ∨ (m.castlingSide ≠ -1 ∧ s.pos.isRandom)) →
      moveString R s m fmt = (longAlgebraicMoveString s.pos m, s)) := by
  constructor
  · intro h
    simp only [moveString, if_pos h]
  · intro h
    simp only [moveString, if_neg h]

/-- Witness for C6: on the concrete fixture both dispatch directions
fire — SAN when requested, LAN for a non-castling move otherwise. -/
theorem c6_dispatch_witness :
    moveString wRules1 wState1 wMove1 MoveFormat.standardAlgebraic =
      sanMoveString wRules1 wState1 wMove1
    ∧ moveString wRules1 wState1 wMove1 MoveFormat.longAlgebraic =
      (longAlgebraicMoveString wState1.pos wMove1, wState1) :=
  ⟨(c6_dispatch wRules1 wState1 wMove1 MoveFormat.standardAlgebraic).1 (Or.inl rfl),
   (c6_dispatch wRules1 wState1 wMove1 MoveFormat.longAlgebraic).2 (by decide)⟩

/-! ### Claim C9 -/

/-- C9: every failure path of both decoders returns the full sentinel
`Move.null = ⟨0, 0, NoPiece, -1⟩` (not merely a zero source): each
decoder's output is either exactly that sentinel — which carries no
promotion and no castling side — or one of the decoder's success shapes
(for SAN, the castling move built from the board registry or a member of
the legal-move list; for LAN, the move structurally assembled from two
valid parsed squares). -/
theorem c9_failure_is_null_move (R : Rules) (b : Position) (str : List Char) :
    (Move.null.source = 0 ∧ Move.null.target = 0
      ∧ Move.null.promotion = NoPiece ∧ Move.null.castlingSide = -1)
    ∧ (moveFromSanString R b str = Move.null
      ∨ (∃ cside, (cside = KingSide ∨ cside = QueenSide)
          ∧ moveFromSanString R b str =
            ⟨b.kingSquare b.side, b.castleTarget b.side cside, NoPiece, cside⟩)
      ∨ moveFromSanString R b str ∈ R.legalMoves b)
    ∧ (moveFromLongAlgebraicString b str = Move.null
      ∨ ∃ sourceSq targetSq promotion cside,
          isValidSquare b sourceSq ∧ isValidSquare b targetSq
          ∧ moveFromLongAlgebraicString b str =
            ⟨squareIndex b sourceSq, squareIndex b targetSq, promotion, cside⟩) := by
  refine ⟨⟨rfl, rfl, rfl, rfl⟩, ?_, ?_⟩
  · simp only [moveFromSanString]
    by_cases h1 : str.length < 2
    · simp [h1]
    · simp only [h1, if_false]
      by_cases h2 : (stripAnnotations str).length < 2
      · simp [h2]
      · simp only [h2, if_false]
        by_cases h3 : startsOO (stripAnnotations str)
        · simp only [h3, if_true]
          unfold sanCastleDecode
          by_cases h4 : stripAnnotations str = ['O', '-', 'O']
          · rw [if_pos h4]
            exact Or.inr (Or.inl ⟨KingSide, Or.inl rfl, rfl⟩)
          · rw [if_neg h4]
            by_cases h5 : stripAnnotations str = ['O', '-', 'O', '-', 'O']
            · rw [if_pos h5]
              exact Or.inr (Or.inl ⟨QueenSide, Or.inr rfl, rfl⟩)
            · rw [if_neg h5]; left; rfl
        · simp only [h3, if_false]
          cases hp : sanParse b (stripAnnotations str) with
          | none => simp
          | some d =>
            simp only []
            rcases resolveSan_range b d (R.legalMoves b) with h | h
            · left; exact h
            · right; right; exact h
  · simp only [moveFromLongAlgebraicString]
    by_cases h1 : str.length < 4
    · simp [h1]
    · simp only [h1, if_false]
      by_cases h2 : ¬ isValidSquare b (parseSquare (str.take 2))
        ∨ ¬ isValidSquare b (parseSquare ((str.drop 2).take 2))
      · simp [h2]
      · simp only [h2, if_false]
        push_neg at h2
        cases hd : str.drop 4 with
        | nil =>
          right
          exact ⟨_, _, _, _, h2.1, h2.2, rfl⟩
        | cons c rest =>
          by_cases h4 : pieceCode c.toUpper = NoPiece
          · simp [h4]
          · simp only [h4, if_false]
            right
            exact ⟨_, _, _, _, h2.1, h2.2, rfl⟩

/-! ### Shared scaffold for the SAN decoder claims -/

theorem moveFromSanString_parse (R : Rules) (b : Position) (str : List Char)
    (h1 : ¬ str.length < 2) (h2 : ¬ (stripAnnotations str).length < 2)
    (h3 : ¬ startsOO (stripAnnotations str)) :
    moveFromSanString R b str =
      match sanParse b (stripAnnotations str) with
      | none => Move.null
      | some d => resolveSan b d (R.legalMoves b) none := by
  simp only [moveFromSanString, if_neg h1, if_neg h2, if_neg h3]

theorem parseSquare_short (cs : List Char) (h : cs.length < 2) :
    parseSquare cs = ⟨-1, -1⟩ := by
  match cs with
  | [] => rfl
  | [c] => rfl
  | c0 :: c1 :: t => exact absurd h (by simp)

theorem not_isValidSquare_invalid (b : Position) :
    ¬ isValidSquare b ⟨-1, -1⟩ := by
  simp [isValidSquare]

/-! ### Claim C3 -/

/-- C3: after all parse constraints are extracted (a successful
`sanParse` of the stripped string), the legal-move list is filtered by
`sanCandidate` — piece kind, target square, specified source file/rank,
non-castling, and promotion piece: exactly one match is returned, zero
matches return the null move, and two or more matches return the null
move. -/
theorem c3_resolution (R : Rules) (b : Position) (str : List Char) (d : SanData)
    (h1 : ¬ str.length < 2) (h2 : ¬ (stripAnnotations str).length < 2)
    (h3 : ¬ startsOO (stripAnnotations str))
    (hp : sanParse b (stripAnnotations str) = some d) :
    moveFromSanString R b str =
      match (R.legalMoves b).filter (fun mv => decide (sanCandidate b d mv)) with
      | [mv] => mv
      | _ => Move.null := by
  rw [moveFromSanString_parse R b str h1 h2 h3, hp]
  exact resolveSan_none b d _

/-- Witness for C3: on the fixture board the string "e4" parses, exactly
one legal move matches, and it is returned. -/
theorem c3_resolution_witness :
    sanParse wPos1 (stripAnnotations ['e', '4']) = some ⟨1, -1, -1, 65, 0⟩
    ∧ moveFromSanString wRules1 wPos1 ['e', '4'] =
        match (wRules1.legalMoves wPos1).filter
            (fun mv => decide (sanCandidate wPos1 ⟨1, -1, -1, 65, 0⟩ mv)) with
        | [mv] => mv
        | _ => Move.null :=
  ⟨by decide,
   c3_resolution wRules1 wPos1 ['e', '4'] ⟨1, -1, -1, 65, 0⟩
     (by decide) (by decide) (by decide) (by decide)⟩

/-! ### Claim C5 -/

/-- C5: SAN decoding fails (returns the null move) whenever the capture
status computed from the board (enemy piece on the target square, or a
pawn moving to the en-passant square — `boardIsCapture`) differs from
whether the string contained an explicit `x` before the target square;
and the parse proceeds past this check (to the promotion parse and the
resolution) only when the two agree. -/
theorem c5_capture_consistency (R : Rules) (b : Position) (str : List Char)
    (s : SanStruct)
    (h1 : ¬ str.length < 2) (h2 : ¬ (stripAnnotations str).length < 2)
    (h3 : ¬ startsOO (stripAnnotations str))
    (hs : sanParseStruct b (stripAnnotations str) = some s) :
    (decide (boardIsCapture b s.piece (squareIndex b s.targetSq)) ≠ s.stringIsCapture →
      moveFromSanString R b str = Move.null)
    ∧ (∀ d, sanParse b (stripAnnotations str) = some d →
      decide (boardIsCapture b s.piece (squareIndex b s.targetSq)) = s.stringIsCapture) := by
  constructor
  · intro hmis
    rw [moveFromSanString_parse R b str h1 h2 h3]
    have hnone : sanParse b (stripAnnotations str) = none := by
      unfold sanParse
      rw [hs]
      simp only [if_pos hmis]
    rw [hnone]
  · intro d hd
    unfold sanParse at hd
    rw [hs] at hd
    have hd' : (if decide (boardIsCapture b s.piece (squareIndex b s.targetSq))
          ≠ s.stringIsCapture then none
        else sanPromo s.piece s.sfile s.srank (squareIndex b s.targetSq) s.rest)
        = some d := hd
    by_cases hc : decide (boardIsCapture b s.piece (squareIndex b s.targetSq)) =
        s.stringIsCapture
    · exact hc
    · rw [if_pos hc] at hd'
      exact absurd hd' (by simp)

/-- Witness for C5: on the fixture board "exd5" parses structurally with
an explicit capture mark, but d5 holds no enemy piece and is not the
en-passant square, so the decode fails to the null move. -/
theorem c5_capture_consistency_witness :
    sanParseStruct wPos1 (stripAnnotations ['e', 'x', 'd', '5']) =
      some ⟨1, 4, -1, ⟨3, 4⟩, true, []⟩
    ∧ moveFromSanString wRules1 wPos1 ['e', 'x', 'd', '5'] = Move.null :=
  ⟨by decide,
   (c5_capture_consistency wRules1 wPos1 ['e', 'x', 'd', '5']
      ⟨1, 4, -1, ⟨3, 4⟩, true, []⟩
      (by decide) (by decide) (by decide) (by decide)).1 (by decide)⟩

/-! ### Claim C7 (corrected) -/

/-- Counterexample to C7 as stated: on the fixture board (white king on
e1) the string "e1c1Z" has two valid square tokens, the king on the
parsed source, and linear index difference −2, yet the decoder does not
set castling side queenside — the unrecognized fifth character 'Z' makes
the whole decode fail to the null move (castling side −1) first. -/
theorem c7_counterexample :
    isValidSquare wPos1 (parseSquare (['e', '1', 'c', '1', 'Z'].take 2))
    ∧ isValidSquare wPos1 (parseSquare ((['e', '1', 'c', '1', 'Z'].drop 2).take 2))
    ∧ wPos1.squares (squareIndex wPos1 (parseSquare (['e', '1', 'c', '1', 'Z'].take 2)))
        * wPos1.sign = King
    ∧ squareIndex wPos1 (parseSquare ((['e', '1', 'c', '1', 'Z'].drop 2).take 2))
        - squareIndex wPos1 (parseSquare (['e', '1', 'c', '1', 'Z'].take 2)) = -2
    ∧ (moveFromLongAlgebraicString wPos1 ['e', '1', 'c', '1', 'Z']).castlingSide
        ≠ QueenSide := by decide

/-- C7 amended: in LAN decoding of a string whose two square tokens
parse to valid squares **and whose fifth character, when present, is a
recognized piece letter** (otherwise the whole decode fails to the null
move), the decoder sets the castling side from the linear index
difference `diff = target − source` exactly when the piece on the parsed
source square is the side to move's king: `diff ∈ {-2,-3}` gives
queenside, `diff ∈ {2,3}` gives kingside, and any other diff — or a
non-king piece on the source — gives castling side none; no legality
check is involved (the statement holds for every board and consults no
move list). -/
theorem c7_lan_castling_inference (b : Position) (str : List Char)
    (hsv : isValidSquare b (parseSquare (str.take 2)))
    (htv : isValidSquare b (parseSquare ((str.drop 2).take 2)))
    (hpromo : str.drop 4 = [] ∨
      pieceCode ((str.drop 4).headD ' ').toUpper ≠ NoPiece) :
    (moveFromLongAlgebraicString b str).castlingSide =
      (if b.squares (squareIndex b (parseSquare (str.take 2))) * b.sign = King then
        (if squareIndex b (parseSquare ((str.drop 2).take 2))
              - squareIndex b (parseSquare (str.take 2)) = -2
            ∨ squareIndex b (parseSquare ((str.drop 2).take 2))
              - squareIndex b (parseSquare (str.take 2)) = -3 then QueenSide
         else if squareIndex b (parseSquare ((str.drop 2).take 2))
              - squareIndex b (parseSquare (str.take 2)) = 2
            ∨ squareIndex b (parseSquare ((str.drop 2).take 2))
              - squareIndex b (parseSquare (str.take 2)) = 3 then KingSide
         else -1)
       else -1) := by
  have hlen : ¬ str.length < 4 := by
    intro hl
    apply not_isValidSquare_invalid b
    rw [← parseSquare_short ((str.drop 2).take 2) (by simp; omega)]
    exact htv
  simp only [moveFromLongAlgebraicString, if_neg hlen]
  rw [if_neg (by push_neg; exact ⟨hsv, htv⟩)]
  cases hd : str.drop 4 with
  | nil => simp only [lanFinish]
  | cons c rest =>
    rcases hpromo with hp | hp
    · rw [hd] at hp; exact absurd hp (by simp)
    · rw [hd] at hp
      simp only [List.headD] at hp
      simp only [if_neg hp, lanFinish]

/-- Witness for the amended C7: the string "e1c1" (no promotion
character) on the fixture board decodes with queenside castling inferred
from the king on e1 and diff −2. -/
theorem c7_lan_castling_inference_witness :
    (moveFromLongAlgebraicString wPos1 ['e', '1', 'c', '1']).castlingSide =
      (if wPos1.squares (squareIndex wPos1 (parseSquare (['e', '1', 'c', '1'].take 2)))
          * wPos1.sign = King then
        (if squareIndex wPos1 (parseSquare ((['e', '1', 'c', '1'].drop 2).take 2))
              - squareIndex wPos1 (parseSquare (['e', '1', 'c', '1'].take 2)) = -2
            ∨ squareIndex wPos1 (parseSquare ((['e', '1', 'c', '1'].drop 2).take 2))
              - squareIndex wPos1 (parseSquare (['e', '1', 'c', '1'].take 2)) = -3 then
          QueenSide
         else if squareIndex wPos1 (parseSquare ((['e', '1', 'c', '1'].drop 2).take 2))
              - squareIndex wPos1 (parseSquare (['e', '1', 'c', '1'].take 2)) = 2
            ∨ squareIndex wPos1 (parseSquare ((['e', '1', 'c', '1'].drop 2).take 2))
              - squareIndex wPos1 (parseSquare (['e', '1', 'c', '1'].take 2)) = 3 then
          KingSide
         else -1)
       else -1) :=
  c7_lan_castling_inference wPos1 ['e', '1', 'c', '1']
    (by decide) (by decide) (Or.inl (by decide))

/-! ### Suffix-placement facts about the SAN encoder -/

theorem pieceChar_not_ann (p : Int) : pieceChar p ≠ '#' ∧ pieceChar p ≠ '+' := by
  unfold pieceChar
  split_ifs <;> exact ⟨by decide, by decide⟩

theorem sanTail_getLastq (b : Position) (square : Square) (target capture : Int)
    (nf nr : Bool) (promo : Int) :
    (sanTail b square target capture nf nr promo).getLast? =
      some (if promo ≠ 0 then pieceChar promo
            else rankCharOf (chessSquare b target).rank) := by
  unfold sanTail squareString
  by_cases hp : promo = 0
  · simp [hp, List.getLast?_append]
  · simp [hp, List.getLast?_append]

theorem cons_getLastq (a : Char) (l : List Char) (h : l.getLast? = some a) (x : Char) :
    (x :: l).getLast? = some a := by
  have hx : x :: l = [x] ++ l := rfl
  rw [hx, List.getLast?_append, h]
  rfl

theorem cons_sanTail_getLastq (x : Char) (b : Position) (square : Square)
    (target capture : Int) (nf nr : Bool) (promo : Int) :
    (x :: sanTail b square target capture nf nr promo).getLast? =
      some (if promo ≠ 0 then pieceChar promo
            else rankCharOf (chessSquare b target).rank) :=
  cons_getLastq _ _ (sanTail_getLastq b square target capture nf nr promo) x

theorem tail_char_ok (b : Position) (target : Int) (promo : Int) (c : Char)
    (h1 : 0 ≤ (chessSquare b target).rank) (h2 : (chessSquare b target).rank ≤ 8)
    (hc : c = (if promo ≠ 0 then pieceChar promo
               else rankCharOf (chessSquare b target).rank)) :
    c ≠ '#' ∧ c ≠ '+' := by
  subst hc
  by_cases hp : promo ≠ 0
  · rw [if_pos hp]
    exact pieceChar_not_ann promo
  · rw [if_neg hp]
    exact ⟨rankCharOf_ne _ h1 h2 _ (Or.inl (by decide)),
           rankCharOf_ne _ h1 h2 _ (Or.inl (by decide))⟩

/-! ### Claim C2 -/

/-- C2: for a move whose target lies on the board, the SAN encoder's
output decomposes as a core followed by the check/mate suffix computed
in the probed position, the core never ends in `'#'` or `'+'` (this also
covers the castling strings `O-O`/`O-O-O`, whose core ends in `'O'`),
and consequently the final character of the output is `'#'` exactly when
the side to move of the probed position is in check with zero legal
moves, `'+'` when it is in check with at least one legal move, and
neither character otherwise. -/
theorem c2_check_mate_suffix (R : Rules) (s : BoardState) (m : Move)
    (h1 : 0 ≤ (chessSquare s.pos m.target).rank)
    (h2 : (chessSquare s.pos m.target).rank ≤ 8) :
    (∃ core, (sanMoveString R s m).1 = core ++ checkOrMateSuffix R (R.makeMove s.pos m)
      ∧ core ≠ []
      ∧ ∀ c, core.getLast? = some c → c ≠ '#' ∧ c ≠ '+')
    ∧ (R.inCheck (R.makeMove s.pos m) (R.makeMove s.pos m).side = true →
        R.legalMoves (R.makeMove s.pos m) = [] →
        (sanMoveString R s m).1.getLast? = some '#')
    ∧ (R.inCheck (R.makeMove s.pos m) (R.makeMove s.pos m).side = true →
        R.legalMoves (R.makeMove s.pos m) ≠ [] →
        (sanMoveString R s m).1.getLast? = some '+')
    ∧ (R.inCheck (R.makeMove s.pos m) (R.makeMove s.pos m).side = false →
        ∀ c, (sanMoveString R s m).1.getLast? = some c → c ≠ '#' ∧ c ≠ '+') := by
  have hmain : ∃ core,
      (sanMoveString R s m).1 = core ++ checkOrMateSuffix R (R.makeMove s.pos m)
      ∧ core ≠ []
      ∧ ∀ c, core.getLast? = some c → c ≠ '#' ∧ c ≠ '+' := by
    simp only [sanMoveString, stateMakeMove, stateUndoMove]
    split_ifs with hPawn hEp hKing hCastle hQ
    · refine ⟨_, rfl, ?_, ?_⟩
      · intro hnil
        have hg := sanTail_getLastq s.pos (chessSquare s.pos m.source) m.target
          (-Pawn * s.pos.sign) (decide (-Pawn * s.pos.sign ≠ NoPiece)) false m.promotion
        rw [hnil] at hg
        exact absurd hg (by simp)
      · intro c hc
        rw [sanTail_getLastq] at hc
        exact tail_char_ok s.pos m.target m.promotion c h1 h2 (Option.some.inj hc).symm
    · refine ⟨_, rfl, ?_, ?_⟩
      · intro hnil
        have hg := sanTail_getLastq s.pos (chessSquare s.pos m.source) m.target
          (s.pos.squares m.target) (decide (s.pos.squares m.target ≠ NoPiece)) false
          m.promotion
        rw [hnil] at hg
        exact absurd hg (by simp)
      · intro c hc
        rw [sanTail_getLastq] at hc
        exact tail_char_ok s.pos m.target m.promotion c h1 h2 (Option.some.inj hc).symm
    · refine ⟨['O', '-', 'O', '-', 'O'], rfl, by decide, ?_⟩
      intro c hc
      have hco : 'O' = c := by simpa using hc
      subst hco
      exact ⟨by decide, by decide⟩
    · refine ⟨['O', '-', 'O'], rfl, by decide, ?_⟩
      intro c hc
      have hco : 'O' = c := by simpa using hc
      subst hco
      exact ⟨by decide, by decide⟩
    · refine ⟨pieceChar (s.pos.squares m.source * s.pos.sign) ::
        sanTail s.pos (chessSquare s.pos m.source) m.target (s.pos.squares m.target)
          false false m.promotion, rfl, by simp, ?_⟩
      intro c hc
      rw [cons_sanTail_getLastq] at hc
      exact tail_char_ok s.pos m.target m.promotion c h1 h2 (Option.some.inj hc).symm
    · refine ⟨pieceChar (s.pos.squares m.source * s.pos.sign) ::
        sanTail s.pos (chessSquare s.pos m.source) m.target (s.pos.squares m.target)
          (disambScan s.pos (R.legalMoves s.pos) m.source m.target
            (s.pos.squares m.source * s.pos.sign) (chessSquare s.pos m.source)).1
          (disambScan s.pos (R.legalMoves s.pos) m.source m.target
            (s.pos.squares m.source * s.pos.sign) (chessSquare s.pos m.source)).2
          m.promotion, rfl, by simp, ?_⟩
      intro c hc
      rw [cons_sanTail_getLastq] at hc
      exact tail_char_ok s.pos m.target m.promotion c h1 h2 (Option.some.inj hc).symm
  obtain ⟨core, hco, hne, hlast⟩ := hmain
  refine ⟨⟨core, hco, hne, hlast⟩, ?_, ?_, ?_⟩
  · intro hchk hmov
    rw [hco]
    unfold checkOrMateSuffix
    rw [if_pos hchk, if_pos hmov, List.getLast?_append]
    rfl
  · intro hchk hmov
    rw [hco]
    unfold checkOrMateSuffix
    rw [if_pos hchk, if_neg hmov, List.getLast?_append]
    rfl
  · intro hchk c hc
    apply hlast
    rw [hco] at hc
    unfold checkOrMateSuffix at hc
    rw [if_neg (by simp [hchk]), List.append_nil] at hc
    exact hc

/-- Witness for C2: with an oracle reporting check and no legal reply in
the probed position, the fixture pawn push encodes to "e4#" whose final
character is the mate mark. -/
theorem c2_check_mate_suffix_witness :
    (sanMoveString wRulesMate wState1 wMove1).1.getLast? = some '#' :=
  (c2_check_mate_suffix wRulesMate wState1 wMove1 (by decide) (by decide)).2.1
    (by decide) (by decide)

/-! ### Claim C8 -/

/-- C8: when another same-kind piece of the side to move can legally
reach the same target square and every such piece stands on a different
file than the moving piece (in particular when exactly two such pieces
can reach the target and they differ in file), the SAN encoding of the
move is the piece letter, then the moving piece's source file letter,
then capture mark, target token, promotion mark and suffix — the source
file letter is included and no source rank digit appears. -/
theorem c8_file_disambiguation (R : Rules) (s : BoardState) (m : Move)
    (hnp : s.pos.squares m.source * s.pos.sign ≠ Pawn)
    (hnk : s.pos.squares m.source * s.pos.sign ≠ King)
    (hex : ∃ mv ∈ R.legalMoves s.pos, mv.source ≠ m.source
        ∧ s.pos.squares mv.source * s.pos.sign = s.pos.squares m.source * s.pos.sign
        ∧ mv.target = m.target)
    (hall : ∀ mv ∈ R.legalMoves s.pos, mv.source ≠ m.source →
        s.pos.squares mv.source * s.pos.sign = s.pos.squares m.source * s.pos.sign →
        mv.target = m.target →
        (chessSquare s.pos mv.source).file ≠ (chessSquare s.pos m.source).file) :
    (sanMoveString R s m).1 =
      pieceChar (s.pos.squares m.source * s.pos.sign)
        :: fileCharOf (chessSquare s.pos m.source).file
        :: ((if s.pos.squares m.target ≠ NoPiece then ['x'] else [])
            ++ squareString (chessSquare s.pos m.target)
            ++ (if m.promotion ≠ 0 then ['=', pieceChar m.promotion] else [])
            ++ checkOrMateSuffix R (R.makeMove s.pos m)) := by
  have hfile : (R.legalMoves s.pos).any (fun mv => decide (scanFileWitness s.pos
      m.source m.target (s.pos.squares m.source * s.pos.sign)
      (chessSquare s.pos m.source) mv)) = true := by
    rw [List.any_eq_true]
    obtain ⟨mv, hmem, hne, hpc, htg⟩ := hex
    exact ⟨mv, hmem, by
      simp only [decide_eq_true_eq]
      exact ⟨hne, hpc, htg, hall mv hmem hne hpc htg⟩⟩
  have hrank : (R.legalMoves s.pos).any (fun mv => decide (scanRankWitness s.pos
      m.source m.target (s.pos.squares m.source * s.pos.sign)
      (chessSquare s.pos m.source) mv)) = false := by
    rw [List.any_eq_false]
    intro mv hmem
    simp only [decide_eq_true_eq]
    intro hw
    obtain ⟨hne, hpc, htg, hfe, hre⟩ := hw
    exact absurd hfe (hall mv hmem hne hpc htg)
  simp only [sanMoveString, stateMakeMove, stateUndoMove,
    if_neg hnp, if_neg hnk, disambScan_eq, hfile, hrank]
  unfold sanTail
  simp [List.append_assoc]

/-- Witness for C8: with knights on g1 and c1 both able to reach e2, the
g1 knight's move encodes as "Nge2" — file letter included, no rank
digit. -/
theorem c8_file_disambiguation_witness :
    (sanMoveString wRules2 wState2 wMove4).1 = ['N', 'g', 'e', '2'] := by
  rw [c8_file_disambiguation wRules2 wState2 wMove4 (by decide) (by decide)
    ⟨⟨93, 85, 0, -1⟩, by decide, by decide, by decide, by decide⟩ (by decide)]
  decide

/-! ### Appended-input invariance of the SAN parser (claim C10) -/
theorem sanStructTarget_append (b : Position) (piece sfile srank : Int)
    (cap : Bool) (rest t : List Char) (s : SanStruct)
    (h : sanStructTarget b piece sfile srank cap rest = some s) :
    sanStructTarget b piece sfile srank cap (rest ++ t) =
      some ⟨s.piece, s.sfile, s.srank, s.targetSq, s.stringIsCapture, s.rest ++ t⟩ := by
  match rest with
  | [] => exact absurd h (by simp [sanStructTarget])
  | [t1] => exact absurd h (by simp [sanStructTarget])
  | t1 :: t2 :: rest2 =>
    simp only [sanStructTarget] at h
    rw [List.cons_append, List.cons_append]
    simp only [sanStructTarget]
    by_cases hv : isValidSquare b (parseSquare [t1, t2])
    · rw [if_pos hv] at h
      obtain rfl := Option.some.inj h
      rw [if_pos hv]
    · rw [if_neg hv] at h
      exact absurd h (by simp)

theorem sanStructTail_append (b : Position) (piece sfile srank : Int)
    (rest t : List Char) (s : SanStruct)
    (h : sanStructTail b piece sfile srank rest = some s) (hr : s.rest ≠ []) :
    sanStructTail b piece sfile srank (rest ++ t) =
      some ⟨s.piece, s.sfile, s.srank, s.targetSq, s.stringIsCapture, s.rest ++ t⟩ := by
  match rest with
  | [] =>
    simp only [sanStructTail] at h
    by_cases hv : isValidSquare b (⟨sfile, srank⟩ : Square)
    · rw [if_pos hv] at h
      obtain rfl := Option.some.inj h
      exact absurd rfl hr
    · rw [if_neg hv] at h
      exact absurd h (by simp)
  | c :: rest1 =>
    rw [List.cons_append]
    simp only [sanStructTail] at h ⊢
    by_cases hx : c = 'x'
    · rw [if_pos hx] at h ⊢
      match rest1 with
      | [] => simp at h
      | d :: rest2 =>
        rw [List.cons_append]
        exact sanStructTarget_append b piece sfile srank true (d :: rest2) t s h
    · rw [if_neg hx] at h ⊢
      rw [← List.cons_append]
      exact sanStructTarget_append b piece sfile srank false (c :: rest1) t s h

theorem sanStructRank_append (b : Position) (piece sfile : Int)
    (rest t : List Char) (s : SanStruct)
    (h : sanStructRank b piece sfile rest = some s) (hr : s.rest ≠ []) :
    sanStructRank b piece sfile (rest ++ t) =
      some ⟨s.piece, s.sfile, s.srank, s.targetSq, s.stringIsCapture, s.rest ++ t⟩ := by
  match rest with
  | [] => exact absurd h (by simp [sanStructRank])
  | c :: rest1 =>
    rw [List.cons_append]
    simp only [sanStructRank] at h ⊢
    by_cases hd : c.isDigit
    · rw [if_pos hd] at h ⊢
      by_cases hb : ((c.toNat : Int) - 49) < 0 ∨ b.height ≤ ((c.toNat : Int) - 49)
      · rw [if_pos hb] at h
        exact absurd h (by simp)
      · rw [if_neg hb] at h ⊢
        exact sanStructTail_append b piece sfile _ rest1 t s h hr
    · rw [if_neg hd] at h ⊢
      rw [← List.cons_append]
      exact sanStructTail_append b piece sfile _ (c :: rest1) t s h hr

theorem sanStructSource_append (b : Position) (piece : Int)
    (rest t : List Char) (s : SanStruct)
    (h : sanStructSource b piece rest = some s) (hr : s.rest ≠ []) :
    sanStructSource b piece (rest ++ t) =
      some ⟨s.piece, s.sfile, s.srank, s.targetSq, s.stringIsCapture, s.rest ++ t⟩ := by
  match rest with
  | [] => exact absurd h (by simp [sanStructSource])
  | c :: rest1 =>
    rw [List.cons_append]
    simp only [sanStructSource] at h ⊢
    by_cases hf : ((c.toNat : Int) - 97) < 0 ∨ b.width ≤ ((c.toNat : Int) - 97)
    · rw [if_pos hf] at h ⊢
      rw [← List.cons_append]
      exact sanStructRank_append b piece (-1) (c :: rest1) t s h hr
    · rw [if_neg hf] at h ⊢
      match rest1 with
      | [] => simp at h
      | d :: rest2 =>
        rw [List.cons_append]
        exact sanStructRank_append b piece _ (d :: rest2) t s h hr
theorem sanParseStruct_append (b : Position) (mstr t : List Char) (s : SanStruct)
    (hlen : 2 ≤ mstr.length)
    (h : sanParseStruct b mstr = some s) (hr : s.rest ≠ []) :
    sanParseStruct b (mstr ++ t) =
      some ⟨s.piece, s.sfile, s.srank, s.targetSq, s.stringIsCapture, s.rest ++ t⟩ := by
  match mstr with
  | [] => exact absurd hlen (by simp)
  | [c0] => exact absurd hlen (by simp)
  | c0 :: c1 :: m2 =>
    rw [List.cons_append, List.cons_append]
    simp only [sanParseStruct] at h ⊢
    by_cases hxp : c0 = 'x' ∨ c0 = 'P'
    · rw [if_pos hxp] at h
      exact absurd h (by simp)
    · rw [if_neg hxp] at h ⊢
      by_cases hnp : (if pieceCode c0 < 0 then NoPiece else pieceCode c0) = NoPiece
      · rw [if_pos hnp] at h ⊢
        simp only [List.take, List.drop] at h ⊢
        by_cases hv : isValidSquare b (parseSquare [c0, c1])
        · rw [if_pos hv] at h ⊢
          obtain rfl := Option.some.inj h
          rfl
        · rw [if_neg hv] at h ⊢
          rw [← List.cons_append, ← List.cons_append]
          exact sanStructSource_append b Pawn (c0 :: c1 :: m2) t s h hr
      · rw [if_neg hnp] at h ⊢
        simp only [List.drop] at h ⊢
        rw [← List.cons_append]
        exact sanStructSource_append b _ (c1 :: m2) t s h hr

theorem sanPromo_append (piece sfile srank target : Int) (rest t : List Char)
    (d : SanData) (h : sanPromo piece sfile srank target rest = some d)
    (hp : d.promotion ≠ 0) :
    sanPromo piece sfile srank target (rest ++ t) = some d := by
  match rest with
  | [] =>
    simp only [sanPromo] at h
    obtain rfl := Option.some.inj h
    exact absurd rfl hp
  | c :: rest1 =>
    rw [List.cons_append]
    simp only [sanPromo] at h ⊢
    by_cases hc : c = '=' ∨ c = '('
    · rw [if_pos hc] at h ⊢
      match rest1 with
      | [] => exact absurd h (by simp)
      | p :: rest2 =>
        rw [List.cons_append]
        have h2 : (if pieceCode p = NoPiece then none
            else some (⟨piece, sfile, srank, target, pieceCode p⟩ : SanData))
            = some d := h
        show (if pieceCode p = NoPiece then none
            else some (⟨piece, sfile, srank, target, pieceCode p⟩ : SanData)) = some d
        exact h2
    · rw [if_neg hc] at h ⊢
      have h2 : (if pieceCode c = NoPiece then none
          else some (⟨piece, sfile, srank, target, pieceCode c⟩ : SanData))
          = some d := h
      show (if pieceCode c = NoPiece then none
          else some (⟨piece, sfile, srank, target, pieceCode c⟩ : SanData)) = some d
      exact h2

theorem sanParse_append (b : Position) (mstr t : List Char) (d : SanData)
    (hlen : 2 ≤ mstr.length)
    (h : sanParse b mstr = some d) (hp : d.promotion ≠ 0) :
    sanParse b (mstr ++ t) = some d := by
  unfold sanParse at h ⊢
  cases hs : sanParseStruct b mstr with
  | none => rw [hs] at h; exact absurd h (by simp)
  | some s =>
    rw [hs] at h
    have h2 : (if decide (boardIsCapture b s.piece (squareIndex b s.targetSq))
          ≠ s.stringIsCapture then none
        else sanPromo s.piece s.sfile s.srank (squareIndex b s.targetSq) s.rest)
        = some d := h
    by_cases hcap : decide (boardIsCapture b s.piece (squareIndex b s.targetSq))
        ≠ s.stringIsCapture
    · rw [if_pos hcap] at h2
      exact absurd h2 (by simp)
    · rw [if_neg hcap] at h2
      have hr : s.rest ≠ [] := by
        intro hnil
        rw [hnil] at h2
        simp only [sanPromo] at h2
        obtain rfl := Option.some.inj h2
        exact absurd rfl hp
      rw [sanParseStruct_append b mstr t s hlen hs hr]
      have hgoal : (if decide (boardIsCapture b s.piece (squareIndex b s.targetSq))
            ≠ s.stringIsCapture then none
          else sanPromo s.piece s.sfile s.srank (squareIndex b s.targetSq) (s.rest ++ t))
          = some d := by
        rw [if_neg hcap]
        exact sanPromo_append s.piece s.sfile s.srank _ s.rest t d h2 hp
      exact hgoal
theorem stripAnnotations_append_clean (u t : List Char) (ht : t ≠ [])
    (hann : ∀ c ∈ t, ¬ isAnnotationChar c) :
    stripAnnotations (u ++ t) = u ++ t := by
  apply stripAnnotations_no_ann
  intro c hc
  rw [List.getLast?_append] at hc
  cases hl : t.getLast? with
  | none => exact absurd (List.getLast?_eq_none_iff.mp hl) ht
  | some lc =>
    rw [hl] at hc
    have hlc : lc = c := by simpa using hc
    subst hlc
    exact hann lc (List.mem_of_mem_getLast? hl)

theorem sanParseStruct_OD (b : Position) :
    sanParseStruct b ['O', '-'] = none := by
  have h1 : ¬ ((('O' : Char) = 'x') ∨ (('O' : Char) = 'P')) := by decide
  have h2 : pieceCode 'O' = NoPiece := by decide
  have h3 : ¬ isValidSquare b (parseSquare ['O', '-']) := by
    intro hv
    have hv' : 0 ≤ (parseSquare ['O', '-']).file
        ∧ (parseSquare ['O', '-']).file < b.width
        ∧ 0 ≤ (parseSquare ['O', '-']).rank
        ∧ (parseSquare ['O', '-']).rank < b.height := hv
    have he : (parseSquare ['O', '-']).file = -18 := by decide
    omega
  have e4 : sanStructTarget b Pawn (-1) (-1) false ['O', '-'] = none := by
    simp only [sanStructTarget]
    rw [if_neg h3]
  have e3 : sanStructTail b Pawn (-1) (-1) ['O', '-'] = none := by
    simp only [sanStructTail]
    rw [if_neg (show ¬ (('O' : Char) = 'x') by decide)]
    exact e4
  have e2 : sanStructRank b Pawn (-1) ['O', '-'] = none := by
    simp only [sanStructRank]
    rw [if_neg (show ¬ (('O' : Char).isDigit = true) by decide)]
    exact e3
  have e1 : sanStructSource b Pawn ['O', '-'] = none := by
    simp only [sanStructSource]
    rw [if_pos (Or.inl (by decide) : ((('O' : Char).toNat : Int) - 97 < 0
      ∨ b.width ≤ (('O' : Char).toNat : Int) - 97))]
    exact e2
  simp only [sanParseStruct]
  rw [if_neg h1, h2]
  rw [if_neg (show ¬ ((NoPiece : Int) < 0) by decide), if_pos rfl]
  rw [show List.take 2 ['O', '-'] = ['O', '-'] from rfl]
  rw [if_neg h3]
  exact e1
theorem startsOO_append_of (mstr w : List Char) (hlen : 2 ≤ mstr.length)
    (hoo : ¬ startsOO mstr) (hod : mstr ≠ ['O', '-']) :
    ¬ startsOO (mstr ++ w) := by
  match mstr with
  | [] => exact absurd hlen (by simp)
  | [c0] => exact absurd hlen (by simp)
  | [c0, c1] =>
    intro hw
    unfold startsOO at hw
    simp only [List.cons_append, List.nil_append, List.take] at hw
    match w with
    | [] => simp at hw
    | c2 :: w1 =>
      simp only [List.take] at hw
      obtain ⟨e0, e1, -⟩ : c0 = 'O' ∧ c1 = '-' ∧ _ := by simpa using hw
      exact hod (by rw [e0, e1])
  | c0 :: c1 :: c2 :: m3 =>
    intro hw
    apply hoo
    unfold startsOO at hw ⊢
    simpa using hw

theorem resolveSan_promo (b : Position) (d : SanData) (l : List Move) :
    resolveSan b d l none = Move.null
    ∨ (resolveSan b d l none).promotion = d.promotion := by
  rw [resolveSan_none]
  cases hf : l.filter (fun mv => decide (sanCandidate b d mv)) with
  | nil => left; rfl
  | cons x tl =>
    cases tl with
    | nil =>
      right
      have hx : x ∈ l.filter (fun mv => decide (sanCandidate b d mv)) := by
        rw [hf]; simp
      have hc := (List.mem_filter.mp hx).2
      simp only [decide_eq_true_eq] at hc
      exact hc.2.2.2.2.2
    | cons y u => left; rfl

/-- C10: the SAN decoder ignores any characters that follow the
promotion piece letter — for every string that decodes to a move with a
promotion, appending arbitrary extra characters (none of which is a
trailing-annotation character `+ # ! ?`, so that the appended text is
"before any trailing annotations") yields the same decoded move rather
than a parse failure; likewise the LAN decoder ignores all characters
past index 4. -/
theorem c10_trailing_ignored (R : Rules) (b : Position) (str t : List Char)
    (hm : (moveFromSanString R b str).promotion ≠ NoPiece)
    (ht : t ≠ []) (hann : ∀ c ∈ t, ¬ isAnnotationChar c) :
    moveFromSanString R b (str ++ t) = moveFromSanString R b str
    ∧ ∀ cs t2 : List Char, 5 ≤ cs.length →
        moveFromLongAlgebraicString b (cs ++ t2) = moveFromLongAlgebraicString b cs := by
  constructor
  · have h1 : ¬ str.length < 2 := by
      intro h
      exact hm (by simp only [moveFromSanString, if_pos h]; rfl)
    have h2 : ¬ (stripAnnotations str).length < 2 := by
      intro h
      exact hm (by simp only [moveFromSanString, if_neg h1, if_pos h]; rfl)
    have h3 : ¬ startsOO (stripAnnotations str) := by
      intro h
      apply hm
      simp only [moveFromSanString, if_neg h1, if_neg h2, if_pos h]
      unfold sanCastleDecode
      split_ifs <;> rfl
    obtain ⟨d, hp⟩ : ∃ d, sanParse b (stripAnnotations str) = some d := by
      cases hq : sanParse b (stripAnnotations str) with
      | none =>
        exfalso
        apply hm
        rw [moveFromSanString_parse R b str h1 h2 h3, hq]
        rfl
      | some d => exact ⟨d, rfl⟩
    have hdec : moveFromSanString R b str = resolveSan b d (R.legalMoves b) none := by
      rw [moveFromSanString_parse R b str h1 h2 h3, hp]
    have hdp : d.promotion ≠ 0 := by
      intro h0
      apply hm
      rw [hdec]
      rcases resolveSan_promo b d (R.legalMoves b) with hr | hr
      · rw [hr]; rfl
      · rw [hr, h0]; rfl
    obtain ⟨ys, hys, hysann⟩ := stripAnnotations_split str
    have hstrip2 : stripAnnotations (str ++ t) = stripAnnotations str ++ (ys ++ t) := by
      rw [stripAnnotations_append_clean str t ht hann]
      conv_lhs => rw [hys]
      rw [List.append_assoc]
    have hod : stripAnnotations str ≠ ['O', '-'] := by
      intro he
      rw [he] at hp
      unfold sanParse at hp
      rw [sanParseStruct_OD] at hp
      exact absurd hp (by simp)
    have hlen2 : 2 ≤ (stripAnnotations str).length := by omega
    have hoo2 : ¬ startsOO (stripAnnotations str ++ (ys ++ t)) :=
      startsOO_append_of _ _ hlen2 h3 hod
    have hp2 : sanParse b (stripAnnotations str ++ (ys ++ t)) = some d :=
      sanParse_append b _ _ d hlen2 hp hdp
    have h1' : ¬ (str ++ t).length < 2 := by
      rw [List.length_append]; omega
    have h2' : ¬ (stripAnnotations (str ++ t)).length < 2 := by
      rw [hstrip2, List.length_append]; omega
    have h3' : ¬ startsOO (stripAnnotations (str ++ t)) := by
      rw [hstrip2]; exact hoo2
    rw [moveFromSanString_parse R b (str ++ t) h1' h2' h3', hstrip2, hp2, hdec]
  · intro cs t2 h5
    have hl4 : ¬ (cs ++ t2).length < 4 := by
      rw [List.length_append]; omega
    have hl4' : ¬ cs.length < 4 := by omega
    simp only [moveFromLongAlgebraicString, if_neg hl4, if_neg hl4']
    rw [List.take_append_of_le_length (by omega),
      List.drop_append_of_le_length (by omega),
      List.take_append_of_le_length (by rw [List.length_drop]; omega)]
    by_cases hv : ¬ isValidSquare b (parseSquare (cs.take 2))
      ∨ ¬ isValidSquare b (parseSquare ((cs.drop 2).take 2))
    · rw [if_pos hv, if_pos hv]
    · rw [if_neg hv, if_neg hv]
      rw [List.drop_append_of_le_length (by omega)]
      cases hd : cs.drop 4 with
      | nil =>
        exfalso
        have hlen := congrArg List.length hd
        rw [List.length_drop] at hlen
        simp at hlen
        omega
      | cons c r =>
        rfl

/-- Witness for C10: on the promotion fixture, "e8=Qz" decodes to the
same move as "e8=Q". -/
theorem c10_trailing_ignored_witness :
    moveFromSanString wRules3 wPos3 (['e', '8', '=', 'Q'] ++ ['z']) =
      moveFromSanString wRules3 wPos3 ['e', '8', '=', 'Q'] :=
  (c10_trailing_ignored wRules3 wPos3 ['e', '8', '=', 'Q'] ['z']
    (by decide) (by decide) (by decide)).1

end Chess
namespace Chess

theorem fileCharOf_toNat_sub97 (f : Int) (h0 : 0 ≤ f) (h1 : f ≤ 8) :
    ((fileCharOf f).toNat : Int) - 97 = f := by
  have := fileCharOf_toNat f h0 (by omega)
  omega

theorem rankCharOf_toNat_sub49 (r : Int) (h0 : 0 ≤ r) (h1 : r ≤ 8) :
    ((rankCharOf r).toNat : Int) - 49 = r := by
  have := rankCharOf_toNat r h0 h1
  omega

theorem rankCharOf_toNat_sub97_neg (r : Int) (h0 : 0 ≤ r) (h1 : r ≤ 8) :
    ((rankCharOf r).toNat : Int) - 97 < 0 := by
  have := rankCharOf_toNat r h0 h1
  omega

theorem parseSquare_squareString (sq : Square) (r : List Char)
    (h0 : 0 ≤ sq.file) (h1 : sq.file ≤ 8) (h2 : 0 ≤ sq.rank) (h3 : sq.rank ≤ 8) :
    parseSquare (squareString sq ++ r) = sq := by
  unfold squareString parseSquare
  simp only [List.cons_append]
  rw [Square.mk.injEq]
  exact ⟨fileCharOf_toNat_sub97 sq.file h0 h1, rankCharOf_toNat_sub49 sq.rank h2 h3⟩

theorem pieceChar_facts (p : Int) (h2 : 2 ≤ p) (h6 : p ≤ 6) :
    pieceCode (pieceChar p) = p ∧ pieceChar p ≠ 'x' ∧ pieceChar p ≠ 'P'
    ∧ pieceChar p ≠ 'O' := by
  interval_cases p <;> exact ⟨by decide, by decide, by decide, by decide⟩

theorem startsOO_head (c : Char) (l : List Char) (h : startsOO (c :: l)) :
    c = 'O' := by
  unfold startsOO at h
  simp only [List.take] at h
  exact (List.cons.injEq _ _ _ _).mp h |>.1

/-- The shared tail of the piece-string decode: an optional capture mark
followed by the target token. -/
theorem sanStructTail_shape (b : Position) (piece sfile srank : Int)
    (cap : Bool) (tsq : Square) (htv : isValidSquare b tsq)
    (hw9 : b.width ≤ 9) (hh9 : b.height ≤ 9) :
    sanStructTail b piece sfile srank
        ((if cap then ['x'] else []) ++ squareString tsq) =
      some ⟨piece, sfile, srank, tsq, cap, []⟩ := by
  obtain ⟨hf0, hf1, hr0, hr1⟩ := htv
  have hps : parseSquare [fileCharOf tsq.file, rankCharOf tsq.rank] = tsq := by
    rw [show [fileCharOf tsq.file, rankCharOf tsq.rank]
        = squareString tsq ++ [] by rw [List.append_nil]; rfl]
    exact parseSquare_squareString tsq [] hf0 (by omega) hr0 (by omega)
  cases cap with
  | true =>
    show sanStructTail b piece sfile srank
        ('x' :: [fileCharOf tsq.file, rankCharOf tsq.rank]) = _
    simp only [sanStructTail]
    rw [if_pos trivial]
    simp only [sanStructTarget]
    rw [hps, if_pos ⟨hf0, hf1, hr0, hr1⟩]
  | false =>
    show sanStructTail b piece sfile srank
        (fileCharOf tsq.file :: [rankCharOf tsq.rank]) = _
    simp only [sanStructTail]
    rw [if_neg (fileCharOf_ne tsq.file hf0 (by omega) 'x' (by right; decide))]
    simp only [sanStructTarget]
    rw [hps, if_pos ⟨hf0, hf1, hr0, hr1⟩]

end Chess
namespace Chess
theorem sanStructRank_shape (b : Position) (piece sfile : Int) (ssq tsq : Square)
    (nr cap : Bool) (hw9 : b.width ≤ 9) (hh9 : b.height ≤ 9)
    (hsv : isValidSquare b ssq) (htv : isValidSquare b tsq) :
    sanStructRank b piece sfile
        ((if nr then [rankCharOf ssq.rank] else [])
          ++ (if cap then ['x'] else []) ++ squareString tsq) =
      some ⟨piece, sfile, if nr then ssq.rank else -1, tsq, cap, []⟩ := by
  obtain ⟨hsf0, hsf1, hsr0, hsr1⟩ := hsv
  obtain ⟨htf0, htf1, htr0, htr1⟩ := htv
  cases nr with
  | true =>
    show sanStructRank b piece sfile
        (rankCharOf ssq.rank :: ((if cap then ['x'] else []) ++ squareString tsq)) = _
    simp only [sanStructRank]
    rw [if_pos (rankCharOf_isDigit ssq.rank hsr0 (by omega))]
    rw [rankCharOf_toNat_sub49 ssq.rank hsr0 (by omega)]
    rw [if_neg (by omega)]
    exact sanStructTail_shape b piece sfile ssq.rank cap tsq
      ⟨htf0, htf1, htr0, htr1⟩ hw9 hh9
  | false =>
    cases cap with
    | true =>
      show sanStructRank b piece sfile ('x' :: squareString tsq) = _
      simp only [sanStructRank]
      rw [if_neg (by decide : ¬ ('x' : Char).isDigit = true)]
      exact sanStructTail_shape b piece sfile (-1) true tsq
        ⟨htf0, htf1, htr0, htr1⟩ hw9 hh9
    | false =>
      show sanStructRank b piece sfile
          (fileCharOf tsq.file :: [rankCharOf tsq.rank]) = _
      simp only [sanStructRank]
      rw [if_neg (by rw [fileCharOf_isDigit tsq.file htf0 (by omega)]; simp)]
      exact sanStructTail_shape b piece sfile (-1) false tsq
        ⟨htf0, htf1, htr0, htr1⟩ hw9 hh9
end Chess
namespace Chess
theorem sanStructSource_shape (b : Position) (piece : Int) (ssq tsq : Square)
    (nf nr cap : Bool) (hw9 : b.width ≤ 9) (hh9 : b.height ≤ 9)
    (hsv : isValidSquare b ssq) (htv : isValidSquare b tsq) :
    sanStructSource b piece
        ((if nf then [fileCharOf ssq.file] else [])
          ++ (if nr then [rankCharOf ssq.rank] else [])
          ++ (if cap then ['x'] else []) ++ squareString tsq) =
      some ⟨piece, if nf then ssq.file else -1, if nr then ssq.rank else -1,
            tsq, cap, []⟩ := by
  obtain ⟨hsf0, hsf1, hsr0, hsr1⟩ := hsv
  obtain ⟨htf0, htf1, htr0, htr1⟩ := htv
  have hrk := sanStructRank_shape b piece
  cases nf with
  | true =>
    have hstep : sanStructSource b piece
        (fileCharOf ssq.file :: ((if nr then [rankCharOf ssq.rank] else [])
          ++ (if cap then ['x'] else []) ++ squareString tsq)) =
        sanStructRank b piece ssq.file
          ((if nr then [rankCharOf ssq.rank] else [])
            ++ (if cap then ['x'] else []) ++ squareString tsq) := by
      simp only [sanStructSource]
      rw [fileCharOf_toNat_sub97 ssq.file hsf0 (by omega)]
      rw [if_neg (by omega)]
      cases nr with
      | true => rfl
      | false =>
        cases cap with
        | true => rfl
        | false => rfl
    refine Eq.trans ?_ (Eq.trans
      (hrk ssq.file ssq tsq nr cap hw9 hh9 ⟨hsf0, hsf1, hsr0, hsr1⟩
        ⟨htf0, htf1, htr0, htr1⟩) rfl)
    exact hstep
  | false =>
    cases nr with
    | true =>
      show sanStructSource b piece
          (rankCharOf ssq.rank :: ((if cap then ['x'] else []) ++ squareString tsq)) = _
      simp only [sanStructSource]
      rw [if_pos (Or.inl (rankCharOf_toNat_sub97_neg ssq.rank hsr0 (by omega)))]
      exact hrk (-1) ssq tsq true cap hw9 hh9 ⟨hsf0, hsf1, hsr0, hsr1⟩
        ⟨htf0, htf1, htr0, htr1⟩
    | false =>
      cases cap with
      | true =>
        show sanStructSource b piece ('x' :: squareString tsq) = _
        simp only [sanStructSource]
        rw [if_pos (Or.inr (by
          have : (('x' : Char).toNat : Int) = 120 := by decide
          omega))]
        exact hrk (-1) ssq tsq false true hw9 hh9 ⟨hsf0, hsf1, hsr0, hsr1⟩
          ⟨htf0, htf1, htr0, htr1⟩
      | false =>
        show sanStructSource b piece
            (fileCharOf tsq.file :: [rankCharOf tsq.rank]) = _
        simp only [sanStructSource]
        rw [fileCharOf_toNat_sub97 tsq.file htf0 (by omega)]
        rw [if_neg (by omega)]
        simp only [sanStructRank]
        rw [if_pos (rankCharOf_isDigit tsq.rank htr0 (by omega))]
        rw [rankCharOf_toNat_sub49 tsq.rank htr0 (by omega)]
        rw [if_neg (by omega)]
        simp only [sanStructTail]
        rw [if_pos (show isValidSquare b ⟨tsq.file, tsq.rank⟩
          from ⟨htf0, htf1, htr0, htr1⟩)]
        simp
end Chess
namespace Chess
theorem sanPromo_mark (piece sfile srank target promo : Int)
    (hpromo : promo = 0 ∨ (1 ≤ promo ∧ promo ≤ 6)) :
    sanPromo piece sfile srank target
        (if promo ≠ 0 then ['=', pieceChar promo] else []) =
      some ⟨piece, sfile, srank, target, promo⟩ := by
  rcases hpromo with h0 | ⟨hl, hu⟩
  · rw [if_neg (by omega)]
    simp only [sanPromo]
    rw [h0]
    rfl
  · rw [if_pos (by omega)]
    show (if pieceCode (pieceChar promo) = NoPiece then none
        else some (⟨piece, sfile, srank, target, pieceCode (pieceChar promo)⟩ : SanData))
      = _
    rw [pieceCode_pieceChar promo hl hu]
    rw [if_neg (by simp only [NoPiece]; omega)]

theorem sanParse_piece_shape (b : Position) (p : Int) (ssq tsq : Square)
    (nf nr cap : Bool) (hw9 : b.width ≤ 9) (hh9 : b.height ≤ 9)
    (hsv : isValidSquare b ssq) (htv : isValidSquare b tsq)
    (hp2 : 2 ≤ p) (hp6 : p ≤ 6)
    (hcap : decide (boardIsCapture b p (squareIndex b tsq)) = cap) :
    sanParse b (pieceChar p ::
        ((if nf then [fileCharOf ssq.file] else [])
          ++ (if nr then [rankCharOf ssq.rank] else [])
          ++ (if cap then ['x'] else []) ++ squareString tsq)) =
      some ⟨p, if nf then ssq.file else -1, if nr then ssq.rank else -1,
            squareIndex b tsq, NoPiece⟩ := by
  obtain ⟨hpc, hx, hP, hO⟩ := pieceChar_facts p hp2 hp6
  unfold sanParse
  have hstruct : sanParseStruct b (pieceChar p ::
      ((if nf then [fileCharOf ssq.file] else [])
        ++ (if nr then [rankCharOf ssq.rank] else [])
        ++ (if cap then ['x'] else []) ++ squareString tsq)) =
      some ⟨p, if nf then ssq.file else -1, if nr then ssq.rank else -1,
            tsq, cap, []⟩ := by
    simp only [sanParseStruct]
    rw [if_neg (by rintro (h | h); exact hx h; exact hP h)]
    rw [hpc]
    rw [if_neg (by omega : ¬ p < 0)]
    rw [if_neg (by simp only [NoPiece]; omega)]
    exact sanStructSource_shape b p ssq tsq nf nr cap hw9 hh9 hsv htv
  rw [hstruct]
  show (if decide (boardIsCapture b p (squareIndex b tsq)) ≠ cap then none
      else sanPromo p (if nf then ssq.file else -1) (if nr then ssq.rank else -1)
        (squareIndex b tsq) []) = _
  rw [if_neg (by simp [hcap])]
  simp only [sanPromo]

theorem sanParse_pawn_noncap (b : Position) (tsq : Square) (promo : Int)
    (hw9 : b.width ≤ 9) (hh9 : b.height ≤ 9) (htv : isValidSquare b tsq)
    (hpromo : promo = 0 ∨ (1 ≤ promo ∧ promo ≤ 6))
    (hcap : decide (boardIsCapture b Pawn (squareIndex b tsq)) = false) :
    sanParse b (squareString tsq ++ (if promo ≠ 0 then ['=', pieceChar promo] else [])) =
      some ⟨Pawn, -1, -1, squareIndex b tsq, promo⟩ := by
  obtain ⟨htf0, htf1, htr0, htr1⟩ := htv
  have hps0 : parseSquare (squareString tsq) = tsq := by
    rw [show squareString tsq = squareString tsq ++ [] by rw [List.append_nil]]
    exact parseSquare_squareString tsq [] htf0 (by omega) htr0 (by omega)
  unfold sanParse
  have hstruct : sanParseStruct b (squareString tsq
      ++ (if promo ≠ 0 then ['=', pieceChar promo] else [])) =
      some ⟨Pawn, -1, -1, tsq, false,
            (if promo ≠ 0 then ['=', pieceChar promo] else [])⟩ := by
    show sanParseStruct b (fileCharOf tsq.file :: rankCharOf tsq.rank ::
        (if promo ≠ 0 then ['=', pieceChar promo] else [])) = _
    simp only [sanParseStruct]
    rw [if_neg (by
      rintro (h | h)
      · exact fileCharOf_ne tsq.file htf0 (by omega) 'x' (by right; decide) h
      · exact fileCharOf_ne tsq.file htf0 (by omega) 'P' (by left; decide) h)]
    rw [fileCharOf_pieceCode tsq.file htf0 (by omega)]
    rw [if_neg (show ¬ ((NoPiece : Int) < 0) by decide)]
    rw [if_pos (show (NoPiece : Int) = NoPiece from rfl)]
    rw [show List.take 2 (fileCharOf tsq.file :: rankCharOf tsq.rank ::
        (if promo ≠ 0 then ['=', pieceChar promo] else []))
      = squareString tsq from by
        by_cases hpz : promo ≠ 0
        · rw [if_pos hpz]; rfl
        · rw [if_neg hpz]; rfl]
    rw [hps0, if_pos ⟨htf0, htf1, htr0, htr1⟩]
    rfl
  rw [hstruct]
  show (if decide (boardIsCapture b Pawn (squareIndex b tsq)) ≠ false then none
      else sanPromo Pawn (-1) (-1) (squareIndex b tsq)
        (if promo ≠ 0 then ['=', pieceChar promo] else [])) = _
  rw [if_neg (by simp [hcap])]
  exact sanPromo_mark Pawn (-1) (-1) (squareIndex b tsq) promo hpromo
end Chess
namespace Chess
theorem sanParse_pawn_cap (b : Position) (ssq tsq : Square) (promo : Int)
    (hw9 : b.width ≤ 9) (hh9 : b.height ≤ 9)
    (hsv : isValidSquare b ssq) (htv : isValidSquare b tsq)
    (hpromo : promo = 0 ∨ (1 ≤ promo ∧ promo ≤ 6))
    (hcap : decide (boardIsCapture b Pawn (squareIndex b tsq)) = true) :
    sanParse b (fileCharOf ssq.file :: 'x' :: squareString tsq
        ++ (if promo ≠ 0 then ['=', pieceChar promo] else [])) =
      some ⟨Pawn, ssq.file, -1, squareIndex b tsq, promo⟩ := by
  obtain ⟨hsf0, hsf1, hsr0, hsr1⟩ := hsv
  obtain ⟨htf0, htf1, htr0, htr1⟩ := htv
  have hps0 : parseSquare (squareString tsq) = tsq := by
    rw [show squareString tsq = squareString tsq ++ [] by rw [List.append_nil]]
    exact parseSquare_squareString tsq [] htf0 (by omega) htr0 (by omega)
  unfold sanParse
  rw [show (fileCharOf ssq.file :: 'x' :: squareString tsq
      ++ (if promo ≠ 0 then ['=', pieceChar promo] else []))
    = (fileCharOf ssq.file :: 'x' :: fileCharOf tsq.file :: rankCharOf tsq.rank ::
      (if promo ≠ 0 then ['=', pieceChar promo] else [])) from rfl]
  have hstruct : sanParseStruct b (fileCharOf ssq.file :: 'x' :: fileCharOf tsq.file ::
      rankCharOf tsq.rank :: (if promo ≠ 0 then ['=', pieceChar promo] else [])) =
      some ⟨Pawn, ssq.file, -1, tsq, true,
            (if promo ≠ 0 then ['=', pieceChar promo] else [])⟩ := by
    simp only [sanParseStruct]
    rw [if_neg (show ¬ (fileCharOf ssq.file = 'x' ∨ fileCharOf ssq.file = 'P') from by
      rintro (h | h)
      · exact fileCharOf_ne ssq.file hsf0 (by omega) 'x' (by right; decide) h
      · exact fileCharOf_ne ssq.file hsf0 (by omega) 'P' (by left; decide) h)]
    rw [fileCharOf_pieceCode ssq.file hsf0 (by omega)]
    rw [if_neg (show ¬ ((NoPiece : Int) < 0) by decide)]
    rw [if_pos (show (NoPiece : Int) = NoPiece from rfl)]
    rw [show List.take 2 (fileCharOf ssq.file :: 'x' :: fileCharOf tsq.file ::
        rankCharOf tsq.rank :: (if promo ≠ 0 then ['=', pieceChar promo] else []))
      = [fileCharOf ssq.file, 'x'] from rfl]
    rw [if_neg (show ¬ isValidSquare b (parseSquare [fileCharOf ssq.file, 'x']) from by
      intro hv
      have hv' : 0 ≤ (parseSquare [fileCharOf ssq.file, 'x']).file
          ∧ (parseSquare [fileCharOf ssq.file, 'x']).file < b.width
          ∧ 0 ≤ (parseSquare [fileCharOf ssq.file, 'x']).rank
          ∧ (parseSquare [fileCharOf ssq.file, 'x']).rank < b.height := hv
      have hrk : (parseSquare [fileCharOf ssq.file, 'x']).rank = 71 := by
        show (('x' : Char).toNat : Int) - 49 = 71
        decide
      omega)]
    simp only [sanStructSource]
    rw [fileCharOf_toNat_sub97 ssq.file hsf0 (by omega)]
    rw [if_neg (by omega)]
    simp only [sanStructRank]
    rw [if_neg (by decide : ¬ ('x' : Char).isDigit = true)]
    simp only [sanStructTail]
    rw [if_pos trivial]
    simp only [sanStructTarget]
    rw [show parseSquare [fileCharOf tsq.file, rankCharOf tsq.rank]
        = parseSquare (squareString tsq) from rfl]
    rw [hps0, if_pos ⟨htf0, htf1, htr0, htr1⟩]
  rw [hstruct]
  show (if decide (boardIsCapture b Pawn (squareIndex b tsq)) ≠ true then none
      else sanPromo Pawn ssq.file (-1) (squareIndex b tsq)
        (if promo ≠ 0 then ['=', pieceChar promo] else [])) = _
  rw [if_neg (by simp [hcap])]
  exact sanPromo_mark Pawn ssq.file (-1) (squareIndex b tsq) promo hpromo
end Chess
namespace Chess
theorem not_ann_of_toNat (c : Char)
    (h : 64 ≤ c.toNat ∨ (48 ≤ c.toNat ∧ c.toNat ≤ 57)) :
    ¬ isAnnotationChar c := by
  rintro (rfl | rfl | rfl | rfl) <;> revert h <;> decide

theorem checkOrMateSuffix_ann (R : Rules) (p : Position) :
    ∀ c ∈ checkOrMateSuffix R p, isAnnotationChar c := by
  intro c hc
  unfold checkOrMateSuffix at hc
  split_ifs at hc <;> simp at hc <;> subst hc <;>
    first
    | exact Or.inr (Or.inl rfl)
    | exact Or.inl rfl

theorem move_ext (a b : Move) (h1 : a.source = b.source) (h2 : a.target = b.target)
    (h3 : a.promotion = b.promotion) (h4 : a.castlingSide = b.castlingSide) :
    a = b := by
  cases a; cases b
  simp_all

theorem sanParse_lan_fail (b : Position) (ssq tsq : Square) (pm : List Char)
    (hw9 : b.width ≤ 9) (hh9 : b.height ≤ 9)
    (hsv : isValidSquare b ssq) (htv : isValidSquare b tsq)
    (hown : 1 ≤ b.squares (squareIndex b ssq) * b.sign) :
    sanParse b (squareString ssq ++ squareString tsq ++ pm) = none := by
  obtain ⟨hsf0, hsf1, hsr0, hsr1⟩ := hsv
  obtain ⟨htf0, htf1, htr0, htr1⟩ := htv
  have hps0 : parseSquare (squareString ssq) = ssq := by
    rw [show squareString ssq = squareString ssq ++ [] by rw [List.append_nil]]
    exact parseSquare_squareString ssq [] hsf0 (by omega) hsr0 (by omega)
  unfold sanParse
  rw [show (squareString ssq ++ squareString tsq ++ pm)
    = (fileCharOf ssq.file :: rankCharOf ssq.rank :: fileCharOf tsq.file ::
      rankCharOf tsq.rank :: pm) from by simp [squareString]]
  have hstruct : sanParseStruct b (fileCharOf ssq.file :: rankCharOf ssq.rank ::
      fileCharOf tsq.file :: rankCharOf tsq.rank :: pm) =
      some ⟨Pawn, -1, -1, ssq, false,
            fileCharOf tsq.file :: rankCharOf tsq.rank :: pm⟩ := by
    simp only [sanParseStruct]
    rw [if_neg (show ¬ (fileCharOf ssq.file = 'x' ∨ fileCharOf ssq.file = 'P') from by
      rintro (h | h)
      · exact fileCharOf_ne ssq.file hsf0 (by omega) 'x' (by right; decide) h
      · exact fileCharOf_ne ssq.file hsf0 (by omega) 'P' (by left; decide) h)]
    rw [fileCharOf_pieceCode ssq.file hsf0 (by omega)]
    rw [if_neg (show ¬ ((NoPiece : Int) < 0) by decide)]
    rw [if_pos (show (NoPiece : Int) = NoPiece from rfl)]
    rw [show List.take 2 (fileCharOf ssq.file :: rankCharOf ssq.rank ::
        fileCharOf tsq.file :: rankCharOf tsq.rank :: pm)
      = [fileCharOf ssq.file, rankCharOf ssq.rank] from rfl]
    rw [show parseSquare [fileCharOf ssq.file, rankCharOf ssq.rank]
        = parseSquare (squareString ssq) from rfl]
    rw [hps0, if_pos ⟨hsf0, hsf1, hsr0, hsr1⟩]
    rfl
  rw [hstruct]
  show (if decide (boardIsCapture b Pawn (squareIndex b ssq)) ≠ false then none
      else sanPromo Pawn (-1) (-1) (squareIndex b ssq)
        (fileCharOf tsq.file :: rankCharOf tsq.rank :: pm)) = none
  by_cases hic : decide (boardIsCapture b Pawn (squareIndex b ssq)) = false
  · rw [if_neg (by simp [hic])]
    simp only [sanPromo]
    rw [if_neg (show ¬ (fileCharOf tsq.file = '=' ∨ fileCharOf tsq.file = '(') from by
      rintro (h | h)
      · exact fileCharOf_ne tsq.file htf0 (by omega) '=' (by left; decide) h
      · exact fileCharOf_ne tsq.file htf0 (by omega) '(' (by left; decide) h)]
    show (if pieceCode (fileCharOf tsq.file) = NoPiece then none
        else some (⟨Pawn, -1, -1, squareIndex b ssq,
          pieceCode (fileCharOf tsq.file)⟩ : SanData)) = none
    rw [fileCharOf_pieceCode tsq.file htf0 (by omega)]
    rw [if_pos rfl]
  · rw [if_pos (by simpa using hic)]
end Chess
namespace Chess
theorem san_decode_assemble (R : Rules) (b : Position) (core suffix : List Char)
    (d : SanData) (m : Move)
    (hsuffann : ∀ c ∈ suffix, isAnnotationChar c)
    (hlast : ∀ c, core.getLast? = some c → ¬ isAnnotationChar c)
    (hlen : 2 ≤ core.length)
    (hoo : ¬ startsOO core)
    (hparse : sanParse b core = some d)
    (hres : resolveSan b d (R.legalMoves b) none = m) :
    moveFromSanString R b (core ++ suffix) = m := by
  have hstrip : stripAnnotations (core ++ suffix) = core :=
    stripAnnotations_append core suffix hsuffann hlast
  have h1 : ¬ (core ++ suffix).length < 2 := by rw [List.length_append]; omega
  have h2 : ¬ (stripAnnotations (core ++ suffix)).length < 2 := by rw [hstrip]; omega
  have h3 : ¬ startsOO (stripAnnotations (core ++ suffix)) := by rw [hstrip]; exact hoo
  rw [moveFromSanString_parse R b _ h1 h2 h3, hstrip, hparse]
  exact hres

theorem dispatch_of_san (R : Rules) (b : Position) (str : List Char) (m : Move)
    (hsan : moveFromSanString R b str = m) (hs : m.source ≠ 0) (ht : m.target ≠ 0) :
    moveFromString R b str = m := by
  simp only [moveFromString, hsan]
  rw [if_neg (by push_neg; exact ⟨hs, ht⟩)]

theorem pawn_capture_agree (b : Position) (t : Int)
    (hsign : b.sign = 1 ∨ b.sign = -1) (hnofr : b.squares t * b.sign ≤ 0) :
    ((if t = b.enpassantSquare then -Pawn * b.sign else b.squares t) ≠ NoPiece)
      ↔ boardIsCapture b Pawn t := by
  by_cases hep : t = b.enpassantSquare
  · rw [if_pos hep]
    unfold boardIsCapture
    constructor
    · intro h; exact Or.inr ⟨hep, rfl⟩
    · intro h
      simp only [Pawn, NoPiece]
      rcases hsign with h1 | h1 <;> rw [h1] <;> omega
  · rw [if_neg hep]
    unfold boardIsCapture
    constructor
    · intro h
      left
      simp only [NoPiece] at h
      rcases hsign with h1 | h1 <;> rw [h1] at hnofr ⊢ <;> omega
    · rintro (h | ⟨h, -⟩)
      · intro h0
        simp only [NoPiece] at h0
        rw [h0] at h
        simp at h
      · exact absurd h hep
end Chess
namespace Chess
theorem c1_san_pawn (R : Rules) (s : BoardState) (m : Move)
    (W : wellFormedSan R s.pos) (hm : m ∈ R.legalMoves s.pos)
    (hpiece : s.pos.squares m.source * s.pos.sign = Pawn) :
    moveFromSanString R s.pos ((sanMoveString R s m).1) = m := by
  obtain ⟨hw0, hw9, hh0, hh9, hsign, hnd, hvalid, hown2, hnofr, hpromor, hpromopawn,
    hcastle, hkdiff, hkuniq, hpcap, hpnon⟩ := W
  obtain ⟨hsv, hseq, htv, hteq⟩ := hvalid m hm
  have hmc : m.castlingSide = -1 := by
    by_contra hc
    have := (hcastle m hm hc).1
    rw [hpiece] at this
    simp [Pawn, King] at this
  have hpr : m.promotion = 0 ∨ (1 ≤ m.promotion ∧ m.promotion ≤ 6) := by
    rcases hpromor m hm with h | h
    · left; exact h
    · right; exact h
  have henc : (sanMoveString R s m).1 =
      sanTail s.pos (chessSquare s.pos m.source) m.target
        (if m.target = s.pos.enpassantSquare then -Pawn * s.pos.sign
         else s.pos.squares m.target)
        (decide ((if m.target = s.pos.enpassantSquare then -Pawn * s.pos.sign
          else s.pos.squares m.target) ≠ NoPiece)) false m.promotion
      ++ checkOrMateSuffix R (R.makeMove s.pos m) := by
    simp only [sanMoveString, stateMakeMove, stateUndoMove, if_pos hpiece]
  rw [henc]
  by_cases hic : boardIsCapture s.pos Pawn m.target
  · -- capture: the en-passant-adjusted capture value is nonzero
    have hcapne : (if m.target = s.pos.enpassantSquare then -Pawn * s.pos.sign
        else s.pos.squares m.target) ≠ NoPiece :=
      (pawn_capture_agree s.pos m.target hsign (hnofr m hm)).mpr hic
    have hcore : sanTail s.pos (chessSquare s.pos m.source) m.target
        (if m.target = s.pos.enpassantSquare then -Pawn * s.pos.sign
         else s.pos.squares m.target)
        (decide ((if m.target = s.pos.enpassantSquare then -Pawn * s.pos.sign
          else s.pos.squares m.target) ≠ NoPiece)) false m.promotion =
        fileCharOf (chessSquare s.pos m.source).file :: 'x' ::
          squareString (chessSquare s.pos m.target)
          ++ (if m.promotion ≠ 0 then ['=', pieceChar m.promotion] else []) := by
      unfold sanTail
      rw [if_pos (by rw [decide_eq_true_eq]; exact hcapne)]
      rw [if_neg (by simp)]
      rw [if_pos hcapne]
      simp
    rw [hcore]
    apply san_decode_assemble R s.pos _ _
      ⟨Pawn, (chessSquare s.pos m.source).file, -1, squareIndex s.pos
        (chessSquare s.pos m.target), m.promotion⟩ m
      (checkOrMateSuffix_ann R _)
    · -- last character clean
      intro c hc
      rw [← hcore] at hc
      rw [sanTail_getLastq] at hc
      obtain rfl := (Option.some.inj hc).symm
      by_cases hpz : m.promotion ≠ 0
      · rw [if_pos hpz]
        apply not_ann_of_toNat
        left
        rcases hpr with h | h
        · omega
        · have := pieceChar_toNat_range m.promotion h.1 h.2
          omega
      · rw [if_neg hpz]
        apply not_ann_of_toNat
        right
        obtain ⟨-, -, h2, h3⟩ := htv
        have := rankCharOf_toNat (chessSquare s.pos m.target).rank h2 (by omega)
        omega
    · -- length
      simp [squareString]
    · -- not O-O
      intro hoo
      have := startsOO_head _ _ hoo
      exact fileCharOf_ne (chessSquare s.pos m.source).file hsv.1
        (by obtain ⟨-, h, -, -⟩ := hsv; omega) 'O' (by left; decide) this
    · -- parse
      exact sanParse_pawn_cap s.pos (chessSquare s.pos m.source)
        (chessSquare s.pos m.target) m.promotion hw9 hh9 hsv htv hpr
        (by rw [← hteq]; simp [hic])
    · -- resolution
      apply resolveSan_unique s.pos _ _ m hnd hm
      · exact ⟨hpiece, hteq, Or.inl rfl, Or.inr rfl, hmc, rfl⟩
      · intro c hcm hcand
        obtain ⟨hc1, hc2, hc3, hc4, hc5, hc6⟩ := hcand
        rcases hc4 with hc4 | hc4
        · exfalso
          have hf0 := hsv.1
          rw [show ((⟨Pawn, (chessSquare s.pos m.source).file, -1,
            squareIndex s.pos (chessSquare s.pos m.target), m.promotion⟩ :
              SanData)).sfile = (chessSquare s.pos m.source).file from rfl] at hc4
          omega
        · exact hpcap c hcm m hm hc1 hpiece (by rw [hc2, ← hteq]) hc6 hc4 hc5 hmc
  · have hcap0 : (if m.target = s.pos.enpassantSquare then -Pawn * s.pos.sign
        else s.pos.squares m.target) = NoPiece := by
      by_contra h
      exact hic ((pawn_capture_agree s.pos m.target hsign (hnofr m hm)).mp h)
    have hcore : sanTail s.pos (chessSquare s.pos m.source) m.target
        (if m.target = s.pos.enpassantSquare then -Pawn * s.pos.sign
         else s.pos.squares m.target)
        (decide ((if m.target = s.pos.enpassantSquare then -Pawn * s.pos.sign
          else s.pos.squares m.target) ≠ NoPiece)) false m.promotion =
        squareString (chessSquare s.pos m.target)
          ++ (if m.promotion ≠ 0 then ['=', pieceChar m.promotion] else []) := by
      rw [hcap0]
      unfold sanTail
      rw [if_neg (by simp)]
      rw [if_neg (by simp)]
      rw [if_neg (show ¬ ((NoPiece : Int) ≠ NoPiece) by simp)]
      simp
    rw [hcore]
    apply san_decode_assemble R s.pos _ _
        ⟨Pawn, -1, -1, squareIndex s.pos (chessSquare s.pos m.target), m.promotion⟩ m
        (checkOrMateSuffix_ann R _)
    · intro c hc
      rw [← hcore] at hc
      rw [sanTail_getLastq] at hc
      obtain rfl := (Option.some.inj hc).symm
      by_cases hpz : m.promotion ≠ 0
      · rw [if_pos hpz]
        apply not_ann_of_toNat
        left
        rcases hpr with h | h
        · omega
        · have := pieceChar_toNat_range m.promotion h.1 h.2
          omega
      · rw [if_neg hpz]
        apply not_ann_of_toNat
        right
        obtain ⟨-, -, h2, h3⟩ := htv
        have := rankCharOf_toNat (chessSquare s.pos m.target).rank h2 (by omega)
        omega
    · simp [squareString]
    · intro hoo
      rw [show squareString (chessSquare s.pos m.target)
          ++ (if m.promotion ≠ 0 then ['=', pieceChar m.promotion] else [])
        = fileCharOf (chessSquare s.pos m.target).file ::
          rankCharOf (chessSquare s.pos m.target).rank ::
          (if m.promotion ≠ 0 then ['=', pieceChar m.promotion] else []) from rfl] at hoo
      have := startsOO_head _ _ hoo
      exact fileCharOf_ne (chessSquare s.pos m.target).file htv.1
        (by obtain ⟨-, h, -, -⟩ := htv; omega) 'O' (by left; decide) this
    · exact sanParse_pawn_noncap s.pos (chessSquare s.pos m.target) m.promotion
        hw9 hh9 htv hpr (by rw [← hteq]; simp [hic])
    · apply resolveSan_unique s.pos _ _ m hnd hm
      · exact ⟨hpiece, hteq, Or.inl rfl, Or.inl rfl, hmc, rfl⟩
      · intro c hcm hcand
        obtain ⟨hc1, hc2, hc3, hc4, hc5, hc6⟩ := hcand
        exact hpnon c hcm m hm hc1 hpiece (by rw [hc2, ← hteq]) hc6
          (by rw [show c.target = m.target from by rw [hc2, ← hteq]]; exact hic)
          hc5 hmc
end Chess
namespace Chess
theorem san_decode_castle_assemble (R : Rules) (b : Position)
    (core suffix : List Char) (m : Move)
    (hsuffann : ∀ c ∈ suffix, isAnnotationChar c)
    (hlast : ∀ c, core.getLast? = some c → ¬ isAnnotationChar c)
    (hlen : 2 ≤ core.length)
    (hoo : startsOO core)
    (hdec : sanCastleDecode b core = m) :
    moveFromSanString R b (core ++ suffix) = m := by
  have hstrip : stripAnnotations (core ++ suffix) = core :=
    stripAnnotations_append core suffix hsuffann hlast
  have h1 : ¬ (core ++ suffix).length < 2 := by rw [List.length_append]; omega
  simp only [moveFromSanString, if_neg h1, hstrip]
  rw [if_neg (by omega), if_pos hoo]
  exact hdec

theorem square_ext (a b : Square) (h1 : a.file = b.file) (h2 : a.rank = b.rank) :
    a = b := by
  cases a; cases b; simp_all

theorem nonpawn_capture_agree (b : Position) (t p : Int)
    (hsign : b.sign = 1 ∨ b.sign = -1) (hnofr : b.squares t * b.sign ≤ 0)
    (hp : p ≠ Pawn) :
    (b.squares t ≠ NoPiece) ↔ boardIsCapture b p t := by
  unfold boardIsCapture
  constructor
  · intro h
    left
    simp only [NoPiece] at h
    rcases hsign with h1 | h1 <;> rw [h1] at hnofr ⊢ <;> omega
  · rintro (h | ⟨-, h⟩)
    · intro h0
      simp only [NoPiece] at h0
      rw [h0] at h
      simp at h
    · exact absurd h hp

theorem c1_san_castle (R : Rules) (s : BoardState) (m : Move)
    (W : wellFormedSan R s.pos) (hm : m ∈ R.legalMoves s.pos)
    (hcs : m.castlingSide ≠ -1) :
    moveFromSanString R s.pos ((sanMoveString R s m).1) = m := by
  obtain ⟨hw0, hw9, hh0, hh9, hsign, hnd, hvalid, hown2, hnofr, hpromor, hpromopawn,
    hcastle, hkdiff, hkuniq, hpcap, hpnon⟩ := W
  obtain ⟨hk, hcsor, hksrc, hktgt, hkpromo, hdq, hdk⟩ := hcastle m hm hcs
  have henc : (sanMoveString R s m).1 =
      (if m.castlingSide = QueenSide then ['O', '-', 'O', '-', 'O'] else ['O', '-', 'O'])
        ++ checkOrMateSuffix R (R.makeMove s.pos m) := by
    simp only [sanMoveString, stateMakeMove, stateUndoMove]
    rw [if_neg (by rw [hk]; decide), if_pos hk, if_pos hcs]
  rw [henc]
  by_cases hq : m.castlingSide = QueenSide
  · rw [if_pos hq]
    apply san_decode_castle_assemble R s.pos _ _ m (checkOrMateSuffix_ann R _)
    · intro c hc
      have : 'O' = c := by simpa using hc
      subst this
      exact not_ann_of_toNat 'O' (by left; decide)
    · simp
    · decide
    · unfold sanCastleDecode
      rw [if_neg (by decide), if_pos rfl]
      refine move_ext _ _ hksrc.symm ?_ hkpromo.symm ?_
      · rw [hktgt, hq]
      · rw [hq]
  · have hks : m.castlingSide = KingSide := by
      rcases hcsor with h | h
      · exact absurd h hq
      · exact h
    rw [if_neg hq]
    apply san_decode_castle_assemble R s.pos _ _ m (checkOrMateSuffix_ann R _)
    · intro c hc
      have : 'O' = c := by simpa using hc
      subst this
      exact not_ann_of_toNat 'O' (by left; decide)
    · simp
    · decide
    · unfold sanCastleDecode
      rw [if_pos rfl]
      refine move_ext _ _ hksrc.symm ?_ hkpromo.symm ?_
      · rw [hktgt, hks]
      · rw [hks]
end Chess
namespace Chess
theorem san_piece_decode (R : Rules) (b : Position) (m : Move) (p : Int) (nf nr : Bool)
    (suffix : List Char)
    (hsuffann : ∀ c ∈ suffix, isAnnotationChar c)
    (hw9 : b.width ≤ 9) (hh9 : b.height ≤ 9)
    (hsv : isValidSquare b (chessSquare b m.source))
    (htv : isValidSquare b (chessSquare b m.target))
    (hteq : m.target = squareIndex b (chessSquare b m.target))
    (hsign : b.sign = 1 ∨ b.sign = -1)
    (hnofrt : b.squares m.target * b.sign ≤ 0)
    (hp2 : 2 ≤ p) (hp6 : p ≤ 6)
    (hres : resolveSan b
      ⟨p, if nf then (chessSquare b m.source).file else -1,
          if nr then (chessSquare b m.source).rank else -1,
          squareIndex b (chessSquare b m.target), NoPiece⟩
      (R.legalMoves b) none = m) :
    moveFromSanString R b
      ((pieceChar p ::
          sanTail b (chessSquare b m.source) m.target (b.squares m.target) nf nr NoPiece)
        ++ suffix) = m := by
  have hcapif : (if b.squares m.target ≠ NoPiece then ['x'] else ([] : List Char))
      = (if decide (b.squares m.target ≠ NoPiece) then ['x'] else []) := by
    by_cases h : b.squares m.target ≠ NoPiece
    · rw [if_pos h, if_pos (by simpa using h)]
    · rw [if_neg h, if_neg (by simpa using h)]
  have hcore : pieceChar p ::
        sanTail b (chessSquare b m.source) m.target (b.squares m.target) nf nr NoPiece
      = pieceChar p ::
        ((if nf then [fileCharOf (chessSquare b m.source).file] else [])
          ++ (if nr then [rankCharOf (chessSquare b m.source).rank] else [])
          ++ (if decide (b.squares m.target ≠ NoPiece) then ['x'] else [])
          ++ squareString (chessSquare b m.target)) := by
    unfold sanTail
    rw [hcapif, if_neg (show ¬ ((NoPiece : Int) ≠ 0) by simp [NoPiece]), List.append_nil]
  have hcap : decide (boardIsCapture b p (squareIndex b (chessSquare b m.target)))
      = decide (b.squares m.target ≠ NoPiece) := by
    rw [← hteq]
    exact decide_eq_decide.mpr
      (nonpawn_capture_agree b m.target p hsign hnofrt (by simp only [Pawn]; omega)).symm
  rw [hcore]
  apply san_decode_assemble R b _ _
    ⟨p, if nf then (chessSquare b m.source).file else -1,
        if nr then (chessSquare b m.source).rank else -1,
        squareIndex b (chessSquare b m.target), NoPiece⟩ m hsuffann
  · intro c hc
    rw [← hcore, cons_sanTail_getLastq] at hc
    rw [if_neg (show ¬ ((NoPiece : Int) ≠ 0) by simp [NoPiece])] at hc
    obtain rfl := (Option.some.inj hc).symm
    apply not_ann_of_toNat
    right
    obtain ⟨-, -, h2, h3⟩ := htv
    have := rankCharOf_toNat (chessSquare b m.target).rank h2 (by omega)
    omega
  · by_cases h : b.squares m.target ≠ NoPiece <;> cases nf <;> cases nr <;>
      simp [squareString, h]
  · intro hoo
    exact (pieceChar_facts p hp2 hp6).2.2.2 (startsOO_head _ _ hoo)
  · exact sanParse_piece_shape b p (chessSquare b m.source) (chessSquare b m.target)
      nf nr (decide (b.squares m.target ≠ NoPiece)) hw9 hh9 hsv htv hp2 hp6 hcap
  · exact hres
end Chess
namespace Chess
theorem c1_san_piece (R : Rules) (s : BoardState) (m : Move)
    (W : wellFormedSan R s.pos) (hm : m ∈ R.legalMoves s.pos)
    (hp2 : 2 ≤ s.pos.squares m.source * s.pos.sign)
    (hcs : m.castlingSide = -1) :
    moveFromSanString R s.pos ((sanMoveString R s m).1) = m := by
  obtain ⟨hw0, hw9, hh0, hh9, hsign, hnd, hvalid, hown2, hnofr, hpromor, hpromopawn,
    hcastle, hkdiff, hkuniq, hpcap, hpnon⟩ := W
  obtain ⟨hsv, hseq, htv, hteq⟩ := hvalid m hm
  have hp6 : s.pos.squares m.source * s.pos.sign ≤ 6 := (hown2 m hm).2
  have hpromo0 : m.promotion = NoPiece := hpromopawn m hm (by simp only [Pawn]; omega)
  by_cases hk : s.pos.squares m.source * s.pos.sign = King
  · have henc : (sanMoveString R s m).1 =
        (pieceChar (s.pos.squares m.source * s.pos.sign) ::
          sanTail s.pos (chessSquare s.pos m.source) m.target (s.pos.squares m.target)
            false false NoPiece)
        ++ checkOrMateSuffix R (R.makeMove s.pos m) := by
      simp only [sanMoveString, stateMakeMove, stateUndoMove,
        if_neg (show ¬ s.pos.squares m.source * s.pos.sign = Pawn by
          simp only [Pawn]; omega),
        if_pos hk,
        if_neg (show ¬ (m.castlingSide ≠ -1) by simp [hcs])]
      rw [hpromo0]
      rfl
    rw [henc]
    apply san_piece_decode R s.pos m _ false false _ (checkOrMateSuffix_ann R _)
      hw9 hh9 hsv htv hteq hsign (hnofr m hm) hp2 hp6
    apply resolveSan_unique s.pos _ _ m hnd hm
    · exact ⟨rfl, hteq, Or.inl (by simp), Or.inl (by simp), hcs, hpromo0⟩
    · intro c hcm hcand
      obtain ⟨hc1, hc2, hc3, hc4, hc5, hc6⟩ := hcand
      have hsrc : c.source = m.source := hkuniq c hcm m hm (hc1.trans hk) hk
      exact move_ext c m hsrc (hc2.trans hteq.symm) (hc6.trans hpromo0.symm)
        (hc5.trans hcs.symm)
  · have henc : (sanMoveString R s m).1 =
        (pieceChar (s.pos.squares m.source * s.pos.sign) ::
          sanTail s.pos (chessSquare s.pos m.source) m.target (s.pos.squares m.target)
            (disambScan s.pos (R.legalMoves s.pos) m.source m.target
              (s.pos.squares m.source * s.pos.sign) (chessSquare s.pos m.source)).1
            (disambScan s.pos (R.legalMoves s.pos) m.source m.target
              (s.pos.squares m.source * s.pos.sign) (chessSquare s.pos m.source)).2
            NoPiece)
        ++ checkOrMateSuffix R (R.makeMove s.pos m) := by
      simp only [sanMoveString, stateMakeMove, stateUndoMove,
        if_neg (show ¬ s.pos.squares m.source * s.pos.sign = Pawn by
          simp only [Pawn]; omega),
        if_neg hk]
      rw [hpromo0]
      rfl
    rw [henc]
    apply san_piece_decode R s.pos m _
      (disambScan s.pos (R.legalMoves s.pos) m.source m.target
        (s.pos.squares m.source * s.pos.sign) (chessSquare s.pos m.source)).1
      (disambScan s.pos (R.legalMoves s.pos) m.source m.target
        (s.pos.squares m.source * s.pos.sign) (chessSquare s.pos m.source)).2
      _ (checkOrMateSuffix_ann R _)
      hw9 hh9 hsv htv hteq hsign (hnofr m hm) hp2 hp6
    apply resolveSan_unique s.pos _ _ m hnd hm
    · refine ⟨rfl, hteq, ?_, ?_, hcs, hpromo0⟩
      · by_cases h : (disambScan s.pos (R.legalMoves s.pos) m.source m.target
            (s.pos.squares m.source * s.pos.sign) (chessSquare s.pos m.source)).2 = true
        · right; rw [if_pos h]
        · left; rw [if_neg h]
      · by_cases h : (disambScan s.pos (R.legalMoves s.pos) m.source m.target
            (s.pos.squares m.source * s.pos.sign) (chessSquare s.pos m.source)).1 = true
        · right; rw [if_pos h]
        · left; rw [if_neg h]
    · intro c hcm hcand
      obtain ⟨hc1, hc2, hc3, hc4, hc5, hc6⟩ := hcand
      have hctm : c.target = m.target := hc2.trans hteq.symm
      by_cases hsrc : c.source = m.source
      · exact move_ext c m hsrc hctm (hc6.trans hpromo0.symm) (hc5.trans hcs.symm)
      · exfalso
        by_cases hfile : (chessSquare s.pos c.source).file
            = (chessSquare s.pos m.source).file
        · by_cases hrank : (chessSquare s.pos c.source).rank
              = (chessSquare s.pos m.source).rank
          · obtain ⟨hcsv, hcseq, -, -⟩ := hvalid c hcm
            apply hsrc
            rw [hcseq, square_ext _ _ hfile hrank, ← hseq]
          · have hwit : scanRankWitness s.pos m.source m.target
                (s.pos.squares m.source * s.pos.sign) (chessSquare s.pos m.source) c :=
              ⟨hsrc, hc1, hctm, hfile, hrank⟩
            have hnr : (disambScan s.pos (R.legalMoves s.pos) m.source m.target
                (s.pos.squares m.source * s.pos.sign)
                (chessSquare s.pos m.source)).2 = true := by
              rw [disambScan_eq]
              exact List.any_eq_true.mpr ⟨c, hcm, by simp [hwit]⟩
            rw [hnr] at hc3
            rcases hc3 with h | h
            · rw [if_pos rfl] at h
              have h2 : (chessSquare s.pos m.source).rank = -1 := h
              have := hsv.2.2.1
              omega
            · rw [if_pos rfl] at h
              exact hrank h
        · have hwit : scanFileWitness s.pos m.source m.target
              (s.pos.squares m.source * s.pos.sign) (chessSquare s.pos m.source) c :=
            ⟨hsrc, hc1, hctm, hfile⟩
          have hnf : (disambScan s.pos (R.legalMoves s.pos) m.source m.target
              (s.pos.squares m.source * s.pos.sign)
              (chessSquare s.pos m.source)).1 = true := by
            rw [disambScan_eq]
            exact List.any_eq_true.mpr ⟨c, hcm, by simp [hwit]⟩
          rw [hnf] at hc4
          rcases hc4 with h | h
          · rw [if_pos rfl] at h
            have h2 : (chessSquare s.pos m.source).file = -1 := h
            have := hsv.1
            omega
          · rw [if_pos rfl] at h
            exact hfile h
end Chess
namespace Chess
theorem lan_getLastq (b : Position) (m : Move) :
    (longAlgebraicMoveString b m).getLast? =
      some (if m.promotion ≠ NoPiece then (pieceChar m.promotion).toLower
            else rankCharOf (chessSquare b m.target).rank) := by
  unfold longAlgebraicMoveString squareString
  by_cases hp : m.promotion ≠ NoPiece
  · simp [hp, List.getLast?_append]
  · simp [hp, List.getLast?_append]

theorem san_on_lan (R : Rules) (b : Position) (m : Move)
    (hw9 : b.width ≤ 9) (hh9 : b.height ≤ 9)
    (hsv : isValidSquare b (chessSquare b m.source))
    (htv : isValidSquare b (chessSquare b m.target))
    (hseq : m.source = squareIndex b (chessSquare b m.source))
    (hown : 1 ≤ b.squares m.source * b.sign)
    (hpromor : m.promotion = NoPiece ∨ (1 ≤ m.promotion ∧ m.promotion ≤ 6)) :
    moveFromSanString R b (longAlgebraicMoveString b m) = Move.null := by
  obtain ⟨hsf0, hsf1, hsr0, hsr1⟩ := hsv
  obtain ⟨htf0, htf1, htr0, htr1⟩ := htv
  have hlast : ∀ c, (longAlgebraicMoveString b m).getLast? = some c →
      ¬ isAnnotationChar c := by
    intro c hc
    rw [lan_getLastq] at hc
    obtain rfl := (Option.some.inj hc).symm
    by_cases hp : m.promotion ≠ NoPiece
    · rw [if_pos hp]
      apply not_ann_of_toNat
      left
      have hpr : 1 ≤ m.promotion ∧ m.promotion ≤ 6 := by
        rcases hpromor with h | h
        · exact absurd h hp
        · exact h
      have := pieceChar_toLower_toNat m.promotion hpr.1 hpr.2
      omega
    · rw [if_neg hp]
      apply not_ann_of_toNat
      right
      have := rankCharOf_toNat (chessSquare b m.target).rank htr0 (by omega)
      omega
  have hstrip : stripAnnotations (longAlgebraicMoveString b m)
      = longAlgebraicMoveString b m := stripAnnotations_no_ann _ hlast
  have hlen : ¬ (longAlgebraicMoveString b m).length < 2 := by
    unfold longAlgebraicMoveString squareString
    by_cases hp : m.promotion ≠ NoPiece <;> simp [hp]
  have hoo : ¬ startsOO (longAlgebraicMoveString b m) := by
    intro h
    rw [show longAlgebraicMoveString b m
        = fileCharOf (chessSquare b m.source).file
          :: rankCharOf (chessSquare b m.source).rank
          :: (squareString (chessSquare b m.target)
            ++ (if m.promotion ≠ NoPiece then [(pieceChar m.promotion).toLower] else []))
      from by unfold longAlgebraicMoveString; simp [squareString]] at h
    exact fileCharOf_ne (chessSquare b m.source).file hsf0 (by omega) 'O'
      (by left; decide) (startsOO_head _ _ h)
  rw [moveFromSanString_parse R b _ hlen
    (by rw [hstrip]; exact hlen) (by rw [hstrip]; exact hoo), hstrip]
  have hparse : sanParse b (longAlgebraicMoveString b m) = none := by
    unfold longAlgebraicMoveString
    exact sanParse_lan_fail b (chessSquare b m.source) (chessSquare b m.target) _
      hw9 hh9 ⟨hsf0, hsf1, hsr0, hsr1⟩ ⟨htf0, htf1, htr0, htr1⟩
      (by rw [← hseq]; exact hown)
  rw [hparse]
end Chess
namespace Chess
theorem lan_decode (R : Rules) (s : BoardState) (m : Move)
    (W : wellFormedSan R s.pos) (hm : m ∈ R.legalMoves s.pos) :
    moveFromLongAlgebraicString s.pos (longAlgebraicMoveString s.pos m) = m := by
  obtain ⟨hw0, hw9, hh0, hh9, hsign, hnd, hvalid, hown2, hnofr, hpromor, hpromopawn,
    hcastle, hkdiff, hkuniq, hpcap, hpnon⟩ := W
  obtain ⟨hsv, hseq, htv, hteq⟩ := hvalid m hm
  obtain ⟨hsf0, hsf1, hsr0, hsr1⟩ := hsv
  obtain ⟨htf0, htf1, htr0, htr1⟩ := htv
  have hps : parseSquare (squareString (chessSquare s.pos m.source))
      = chessSquare s.pos m.source := by
    rw [show squareString (chessSquare s.pos m.source)
      = squareString (chessSquare s.pos m.source) ++ [] by rw [List.append_nil]]
    exact parseSquare_squareString _ [] hsf0 (by omega) hsr0 (by omega)
  have hpt : parseSquare (squareString (chessSquare s.pos m.target))
      = chessSquare s.pos m.target := by
    rw [show squareString (chessSquare s.pos m.target)
      = squareString (chessSquare s.pos m.target) ++ [] by rw [List.append_nil]]
    exact parseSquare_squareString _ [] htf0 (by omega) htr0 (by omega)
  have hstr : longAlgebraicMoveString s.pos m =
      fileCharOf (chessSquare s.pos m.source).file
        :: rankCharOf (chessSquare s.pos m.source).rank
        :: fileCharOf (chessSquare s.pos m.target).file
        :: rankCharOf (chessSquare s.pos m.target).rank
        :: (if m.promotion ≠ NoPiece then [(pieceChar m.promotion).toLower] else []) := by
    unfold longAlgebraicMoveString
    simp [squareString]
  have hfin : lanFinish s.pos (chessSquare s.pos m.source) (chessSquare s.pos m.target)
      m.promotion = m := by
    unfold lanFinish
    refine move_ext _ _ hseq.symm hteq.symm rfl ?_
    show (if s.pos.squares (squareIndex s.pos (chessSquare s.pos m.source)) * s.pos.sign
          = King then _ else (-1 : Int)) = m.castlingSide
    rw [← hseq, ← hteq]
    by_cases hk : s.pos.squares m.source * s.pos.sign = King
    · rw [if_pos hk]
      by_cases hcs : m.castlingSide = -1
      · have hnd2 := hkdiff m hm hk hcs
        rw [if_neg (by tauto), if_neg (by tauto), hcs]
      · obtain ⟨-, hcsor, -, -, -, hdq, hdk⟩ := hcastle m hm hcs
        rcases hcsor with hq | hks
        · rw [if_pos (hdq hq), hq]
        · have hd := hdk hks
          rw [if_neg (by omega), if_pos hd, hks]
    · rw [if_neg hk]
      by_cases hcs : m.castlingSide = -1
      · rw [hcs]
      · exact absurd (hcastle m hm hcs).1 hk
  rw [hstr]
  unfold moveFromLongAlgebraicString
  rw [if_neg (show ¬ (fileCharOf (chessSquare s.pos m.source).file
      :: rankCharOf (chessSquare s.pos m.source).rank
      :: fileCharOf (chessSquare s.pos m.target).file
      :: rankCharOf (chessSquare s.pos m.target).rank
      :: (if m.promotion ≠ NoPiece then [(pieceChar m.promotion).toLower] else [])).length
      < 4 from by by_cases hp : m.promotion ≠ NoPiece <;> simp [hp])]
  rw [show List.take 2 (fileCharOf (chessSquare s.pos m.source).file
      :: rankCharOf (chessSquare s.pos m.source).rank
      :: fileCharOf (chessSquare s.pos m.target).file
      :: rankCharOf (chessSquare s.pos m.target).rank
      :: (if m.promotion ≠ NoPiece then [(pieceChar m.promotion).toLower] else []))
    = squareString (chessSquare s.pos m.source) from rfl]
  rw [show List.take 2 (List.drop 2 (fileCharOf (chessSquare s.pos m.source).file
      :: rankCharOf (chessSquare s.pos m.source).rank
      :: fileCharOf (chessSquare s.pos m.target).file
      :: rankCharOf (chessSquare s.pos m.target).rank
      :: (if m.promotion ≠ NoPiece then [(pieceChar m.promotion).toLower] else [])))
    = squareString (chessSquare s.pos m.target) from rfl]
  rw [hps, hpt]
  rw [if_neg (by push_neg
                 exact ⟨⟨hsf0, hsf1, hsr0, hsr1⟩, ⟨htf0, htf1, htr0, htr1⟩⟩)]
  rw [show List.drop 4 (fileCharOf (chessSquare s.pos m.source).file
      :: rankCharOf (chessSquare s.pos m.source).rank
      :: fileCharOf (chessSquare s.pos m.target).file
      :: rankCharOf (chessSquare s.pos m.target).rank
      :: (if m.promotion ≠ NoPiece then [(pieceChar m.promotion).toLower] else []))
    = (if m.promotion ≠ NoPiece then [(pieceChar m.promotion).toLower] else []) from rfl]
  by_cases hp : m.promotion ≠ NoPiece
  · have hpr : 1 ≤ m.promotion ∧ m.promotion ≤ 6 := by
      rcases hpromor m hm with h | h
      · exact absurd h hp
      · exact h
    rw [if_pos hp]
    show (if pieceCode (pieceChar m.promotion).toLower.toUpper = NoPiece then Move.null
        else lanFinish s.pos (chessSquare s.pos m.source) (chessSquare s.pos m.target)
          (pieceCode (pieceChar m.promotion).toLower.toUpper)) = m
    rw [pieceChar_upper_lower m.promotion hpr.1 hpr.2,
        pieceCode_pieceChar m.promotion hpr.1 hpr.2]
    rw [if_neg (by simp only [NoPiece]; omega)]
    exact hfin
  · rw [if_neg hp]
    show lanFinish s.pos (chessSquare s.pos m.source) (chessSquare s.pos m.target)
        NoPiece = m
    rw [show (NoPiece : Int) = m.promotion from by
      simp only [ne_eq, not_not] at hp; exact hp.symm]
    exact hfin
end Chess
namespace Chess
/-- C1: round trip.  For every legal move `m` of a well-formed position,
decoding the SAN encoding of `m` through the top-level dispatcher
`moveFromString` yields `m` again; and when `m` is not a castling move
or the game is not a randomized-start variant, decoding the long
algebraic encoding likewise yields `m`. -/
theorem c1_roundtrip (R : Rules) (s : BoardState) (m : Move)
    (W : wellFormedSan R s.pos) (hm : m ∈ R.legalMoves s.pos) :
    moveFromString R s.pos ((moveString R s m MoveFormat.standardAlgebraic).1) = m
    ∧ ((m.castlingSide = -1 ∨ s.pos.isRandom = false) →
        moveFromString R s.pos ((moveString R s m MoveFormat.longAlgebraic).1) = m) := by
  have W2 := W
  obtain ⟨hw0, hw9, hh0, hh9, hsign, hnd, hvalid, hown2, hnofr, hpromor, hpromopawn,
    hcastle, hkdiff, hkuniq, hpcap, hpnon⟩ := W2
  obtain ⟨hsv, hseq, htv, hteq⟩ := hvalid m hm
  have hs0 : m.source ≠ 0 := by
    have := squareIndex_pos s.pos (chessSquare s.pos m.source) hw0 hsv
    omega
  have ht0 : m.target ≠ 0 := by
    have := squareIndex_pos s.pos (chessSquare s.pos m.target) hw0 htv
    omega
  have hsan : moveFromSanString R s.pos ((sanMoveString R s m).1) = m := by
    by_cases hcs : m.castlingSide = -1
    · by_cases hpw : s.pos.squares m.source * s.pos.sign = Pawn
      · exact c1_san_pawn R s m W hm hpw
      · refine c1_san_piece R s m W hm ?_ hcs
        have := (hown2 m hm).1
        simp only [Pawn] at hpw
        omega
    · exact c1_san_castle R s m W hm hcs
  constructor
  · rw [show (moveString R s m MoveFormat.standardAlgebraic).1
        = (sanMoveString R s m).1 from by
      unfold moveString
      rw [if_pos (show MoveFormat.standardAlgebraic = MoveFormat.standardAlgebraic
        ∨ (m.castlingSide ≠ -1 ∧ s.pos.isRandom = true) from Or.inl rfl)]]
    exact dispatch_of_san R s.pos _ m hsan hs0 ht0
  · intro hside
    have hlanstr : (moveString R s m MoveFormat.longAlgebraic).1
        = longAlgebraicMoveString s.pos m := by
      unfold moveString
      rw [if_neg ?_]
      rintro (h | ⟨h1, h2⟩)
      · exact absurd h (by decide)
      · rcases hside with h3 | h3
        · exact h1 h3
        · rw [h3] at h2
          exact absurd h2 (by simp)
    rw [hlanstr]
    have hnull := san_on_lan R s.pos m hw9 hh9 hsv htv hseq (hown2 m hm).1
      (hpromor m hm)
    simp only [moveFromString, hnull]
    rw [if_pos (show Move.null.source = 0 ∨ Move.null.target = 0 from Or.inl rfl)]
    exact lan_decode R s m W hm

/-- Witness for C1: the pawn push e2-e4 on the fixture board round-trips
through both the SAN and the long algebraic encoding. -/
theorem c1_roundtrip_witness :
    wellFormedSan wRules1 wState1.pos
    ∧ wMove1 ∈ wRules1.legalMoves wState1.pos
    ∧ (moveFromString wRules1 wState1.pos
        ((moveString wRules1 wState1 wMove1 MoveFormat.standardAlgebraic).1) = wMove1
      ∧ ((wMove1.castlingSide = -1 ∨ wState1.pos.isRandom = false) →
          moveFromString wRules1 wState1.pos
            ((moveString wRules1 wState1 wMove1 MoveFormat.longAlgebraic).1) = wMove1)) :=
  ⟨by decide, by decide, c1_roundtrip wRules1 wState1 wMove1 (by decide) (by decide)⟩
end Chess
